import Mathlib

set_option maxRecDepth 4000

/-!
Verification of the registry-client design against its vendored sources:
`cygwinreg/w32api.py` (typed value codec `py_to_reg` / `reg_to_py`) and
`winregistry/winregistry.py` + `winregistry/utils.py` (path resolver, handle
manager, CRUD and tree algorithms).

Modelling conventions:
* Python 2 unicode strings (narrow build) are sequences of UTF-16 code units;
  we model them as `List Nat` of code units.  Byte buffers are `List Nat`.
* Python exceptions become an explicit error type (`CodecErr`, `PyErr`);
  the design document's taxonomy maps as: `ValueError` ~ MalformedPath,
  `AttributeError` ~ UnknownRoot, `FileNotFoundError` ~ NotFound,
  index-out-of-range `OSError` ~ IndexOutOfRange, `PermissionError` ~ NotEmpty.
* The OS registry (`winreg`) is a state: a list of existing keys
  `(root constant, relative path)` plus value entries, and every OS call is
  recorded in an event trace so that call-sequence claims can be stated.
-/

namespace WReg

/-! ## Value codec (`cygwinreg/w32api.py`) -/

/-- Registry wire type codes.  Modelled from the spec: `cygwinreg/constants.py`
is not present under `src/` (only its importer `w32api.py` is); the spec says
"Each tag has a stable numeric code used on the wire", and these are the
standard Windows codes that module re-exports. -/
def REG_NONE : Nat := 0

def REG_SZ : Nat := 1

def REG_EXPAND_SZ : Nat := 2

def REG_BINARY : Nat := 3

def REG_DWORD : Nat := 4

def REG_MULTI_SZ : Nat := 7

/-- Python values that can reach the codec: `int`, `unicode` (a list of UTF-16
code units), `list`, byte strings, and `None`. -/
inductive PyVal where
  | int (n : Nat)
  | str (s : List Nat)
  | list (l : List PyVal)
  | bytes (b : List Nat)
  | none

/-- Python exception classes raised by the codec. -/
inductive CodecErr where
  | valueError
  | typeError
  | structError
  | unicodeDecodeError
deriving DecidableEq, Repr

/-- `unicode.encode('utf-16-le')`: each code unit becomes low byte then high
byte (narrow-build Python 2 strings are UTF-16 code-unit sequences). -/
def utf16le (s : List Nat) : List Nat :=
  s.flatMap (fun c => [c % 256, c / 256 % 256])

/-- `bytes.decode('utf-16-le')`: pairs of bytes become code units; an
odd-length buffer raises `UnicodeDecodeError` (truncated data). -/
def utf16leDec : List Nat → Option (List Nat)
  | [] => Option.some []
  | [_] => Option.none
  | lo :: hi :: rest => (utf16leDec rest).map (fun t => (lo + 256 * hi) :: t)

/-- `'\x00\x00'.join(parts)` on byte strings. -/
def joinNull : List (List Nat) → List Nat
  | [] => []
  | [p] => p
  | p :: q :: rest => p ++ 0 :: 0 :: joinNull (q :: rest)

/-- Whether a byte lies in the regex class `[\x01-\x7f]` of `UTF16LE_NULL`. -/
def isA (b : Nat) : Bool := decide (1 ≤ b ∧ b ≤ 127)

/-- `re.split` with the pattern `UTF16LE_NULL = (?<![\x01-\x7f])\x00\x00`:
scan left to right; a `00 00` pair whose preceding byte is not in
`[\x01-\x7f]` is a separator (consumed); otherwise the scan advances one
byte.  `blocked` records whether the previous byte lies in `[\x01-\x7f]`
(at the start of the buffer the lookbehind trivially succeeds). -/
def splitNull (blocked : Bool) (acc : List Nat) : List Nat → List (List Nat)
  | [] => [acc.reverse]
  | [b] => [(b :: acc).reverse]
  | b1 :: b2 :: rest =>
      if b1 = 0 ∧ b2 = 0 ∧ blocked = false then
        acc.reverse :: splitNull false [] rest
      else
        splitNull (isA b1) (b1 :: acc) (b2 :: rest)

/-- 4 little-endian bytes of `pack('L', n)` (unsigned 32-bit long on the
target platform). -/
def le32 (n : Nat) : List Nat :=
  [n % 256, n / 256 % 256, n / 65536 % 256, n / 16777216 % 256]

/-- `str.decode(locale.getpreferredencoding())`, applied by the codec's
`utf16` helper to Python 2 byte strings (which ARE `basestring`s and are
therefore accepted by the string branches).  The preferred encoding is an
environment input, not fixed by the source; every encoding
`locale.getpreferredencoding()` reports on the target platforms (US-ASCII,
UTF-8, ISO-8859-x, the Windows ANSI code pages) is ASCII-compatible, so
bytes below `0x80` decode to themselves under all of them.  We model the
POSIX-default locale (`US-ASCII`), under which any other byte raises
`UnicodeDecodeError`; the theorems below rely only on the ASCII region,
where every candidate encoding agrees. -/
def preferredDecode (b : List Nat) : Option (List Nat) :=
  if b.all (fun c => decide (c < 128)) then Option.some b else Option.none

/-- Encode the elements of a `REG_MULTI_SZ` sequence with the source's
`utf16` helper semantics: a unicode element is UTF-16-LE-encoded; a byte
string is a `basestring` too, so it is accepted — decoded with the locale's
preferred encoding, then UTF-16-LE-encoded; the first element that is not a
`basestring` raises `ValueError` ("Element %d must be a string ..."). -/
def encodeElems : List PyVal → Except CodecErr (List (List Nat))
  | [] => .ok []
  | PyVal.str s :: rest =>
      match encodeElems rest with
      | .ok parts => .ok (utf16le s :: parts)
      | .error e => .error e
  | PyVal.bytes b :: rest =>
      match preferredDecode b with
      | Option.some s =>
          match encodeElems rest with
          | .ok parts => .ok (utf16le s :: parts)
          | .error e => .error e
      | Option.none => .error .unicodeDecodeError
  | _ :: _ => .error .valueError

/-- `py_to_reg(value, typ)` from `cygwinreg/w32api.py`.  The returned list is
the raw content of the `ctypes` buffer, whose size is its length.  Notes on
`ctypes`/`struct` semantics kept from the source:
* `create_string_buffer(b)` (no explicit size) appends one NUL byte, so the
  string branch yields `utf16le value ++ [0]` — an odd-length buffer;
* `create_string_buffer(b, len(b))` (explicit size) appends nothing, so the
  `REG_MULTI_SZ` branch yields exactly the joined bytes — in particular the
  empty list encodes as the empty buffer, because
  `'\x00\x00'.join([utf16(u'')]) == ''`;
* `pack('L', v)` raises `struct.error` outside `[0, 2^32)`;
* under `REG_DWORD`, `None` encodes as zero but a non-int raises;
* under the string types any `basestring` is accepted: unicode directly and
  byte strings after a `preferredDecode` (see there); `None`, ints and lists
  are not `basestring`s, so they raise `ValueError`;
* under `REG_MULTI_SZ` only a `list` (an object with `__iter__`) is
  accepted, and each element may be unicode or a byte string;
* in the binary branch `buffer(None)` / `buffer(int)` raise `TypeError`
  (the `create_string_buffer(0)` assignment before the `try` is dead), and
  `buffer(unicode)` exposes the narrow-build UTF-16-LE representation. -/
def py_to_reg (value : PyVal) (typ : Nat) : Except CodecErr (List Nat) :=
  if typ = REG_DWORD then
    match value with
    | PyVal.none => .ok (le32 0)
    | PyVal.int n => if n < 4294967296 then .ok (le32 n) else .error .structError
    | _ => .error .structError
  else if typ = REG_SZ ∨ typ = REG_EXPAND_SZ then
    match value with
    | PyVal.str s => .ok (utf16le s ++ [0])
    | PyVal.bytes b =>
        match preferredDecode b with
        | Option.some s => .ok (utf16le s ++ [0])
        | Option.none => .error .unicodeDecodeError
    | _ => .error .valueError
  else if typ = REG_MULTI_SZ then
    match value with
    | PyVal.list elems =>
        match encodeElems elems with
        | .ok parts => .ok (joinNull (parts ++ [[]]))
        | .error e => .error e
    | _ => .error .valueError
  else
    match value with
    | PyVal.bytes b => .ok b
    | PyVal.str s => .ok (utf16le s)
    | _ => .error .typeError

/-- The `for s in UTF16LE_NULL.split(buf)` loop of the `REG_MULTI_SZ` branch
of `reg_to_py`: decode each segment until the first empty one (the
terminator), raising `UnicodeDecodeError` if a segment fails to decode. -/
def decodeSegs : List (List Nat) → Except CodecErr (List (List Nat))
  | [] => .ok []
  | s :: rest =>
      if s = [] then .ok []
      else
        match utf16leDec s with
        | Option.some d =>
            match decodeSegs rest with
            | .ok ds => .ok (d :: ds)
            | .error e => .error e
        | Option.none => .error .unicodeDecodeError

/-- `reg_to_py(data_buf, data_size, typ)` from `cygwinreg/w32api.py`. -/
def reg_to_py (data_buf : List Nat) (data_size : Nat) (typ : Nat) :
    Except CodecErr PyVal :=
  if typ = REG_DWORD then
    if data_size = 0 then .ok (PyVal.int 0)
    else
      match data_buf with
      | b0 :: b1 :: b2 :: b3 :: _ =>
          .ok (PyVal.int (b0 + 256 * b1 + 65536 * b2 + 16777216 * b3))
      | _ => .error .structError
  else if typ = REG_SZ ∨ typ = REG_EXPAND_SZ then
    let ds := if data_size % 2 = 1 then data_size - 1 else data_size
    let buf := if ds < data_buf.length then data_buf.take ds else data_buf
    match utf16leDec (splitNull false [] buf).headI with
    | Option.some s => .ok (PyVal.str s)
    | Option.none => .error .unicodeDecodeError
  else if typ = REG_MULTI_SZ then
    let ds := if data_size % 2 = 1 then data_size - 1 else data_size
    let buf := if ds < data_buf.length then data_buf.take ds else data_buf
    match decodeSegs (splitNull false [] buf) with
    | .ok segs => .ok (PyVal.list (segs.map PyVal.str))
    | .error e => .error e
  else
    if data_size = 0 then .ok PyVal.none
    else .ok (PyVal.bytes (data_buf.take data_size))

/-- `decode(encode(v, t), t)` with the buffer size that `py_to_reg` produced
(the codec's callers pass `sizeof(value_buf)`). -/
def roundTrip (v : PyVal) (typ : Nat) : Except CodecErr PyVal :=
  match py_to_reg v typ with
  | .ok buf => reg_to_py buf buf.length typ
  | .error e => .error e

/-! ## Path resolver (`winregistry/utils.py`) -/

/-- Python strings at the client layer, as character sequences. -/
abbrev PStr := List Char

/-- Python exception classes raised by the client layer.  Design-document
taxonomy: `valueErr` ~ MalformedPath, `attrErr` ~ UnknownRoot, `fileNotFound`
~ NotFound, `osErr` ~ IndexOutOfRange (`EnumKey` past the end),
`permissionErr` ~ NotEmpty.  `noneHandler` models the `TypeError` of calling
`CreateKeyEx` with `key=None` (unreachable for parseable paths); `fuelOut` is
a modelling artifact of the bounded recursion in `delete_key_tree`. -/
inductive PyErr where
  | fileNotFound
  | valueErr
  | attrErr
  | osErr
  | permissionErr
  | noneHandler
  | fuelOut
deriving DecidableEq, Repr

/-- `s.split("\\", maxsplit=1)`: the part before the first backslash and the
rest; `Option.none` when there is no separator (so that unpacking the single
part into two names raises `ValueError`). -/
def splitFirst : PStr → Option (PStr × PStr)
  | [] => Option.none
  | c :: rest =>
      if c = '\\' then Option.some ([], rest)
      else
        match splitFirst rest with
        | Option.some (a, b) => Option.some (c :: a, b)
        | Option.none => Option.none

/-- `s.rsplit(sep="\\", maxsplit=1)`: split at the last backslash;
`Option.none` when there is no separator. -/
def rsplitLast : PStr → Option (PStr × PStr)
  | [] => Option.none
  | c :: rest =>
      match rsplitLast rest with
      | Option.some (a, b) => Option.some (c :: a, b)
      | Option.none => if c = '\\' then Option.some ([], rest) else Option.none

/-- `s.split("\\")` (full split; `"".split("\\") == [""]`). -/
def splitAll : PStr → List PStr
  | [] => [[]]
  | c :: rest =>
      if c = '\\' then [] :: splitAll rest
      else
        match splitAll rest with
        | s :: ss => (c :: s) :: ss
        | [] => [[c]]

/-- `"\\".join(parts)`. -/
def joinBS : List PStr → PStr
  | [] => []
  | [s] => s
  | s :: t :: rest => s ++ '\\' :: joinBS (t :: rest)

/-- `str.upper()` (the root tokens are ASCII, where `Char.toUpper` agrees
with Python's `upper`). -/
def upperStr (s : PStr) : PStr := s.map Char.toUpper

/-- Modelled from the spec: `ShortRootAlias` is defined in
`winregistry/consts.py`, which is not present under `src/` (only its
importers are).  The spec describes it as an immutable "mapping from short
textual aliases to canonical names" of the roots (local-machine,
current-user, users, classes-root, current-config); these are the standard
short aliases. -/
def shortRootAlias (s : PStr) : Option PStr :=
  if s = "HKCR".toList then Option.some "HKEY_CLASSES_ROOT".toList
  else if s = "HKCU".toList then Option.some "HKEY_CURRENT_USER".toList
  else if s = "HKLM".toList then Option.some "HKEY_LOCAL_MACHINE".toList
  else if s = "HKU".toList then Option.some "HKEY_USERS".toList
  else if s = "HKCC".toList then Option.some "HKEY_CURRENT_CONFIG".toList
  else Option.none

/-- `expand_short_root` from `winregistry/utils.py`: look the token up in the
alias table, passing it through unchanged on `KeyError`. -/
def expand_short_root (root : PStr) : PStr := (shortRootAlias root).getD root

/-- `getattr(winreg, name)` restricted to the `HKEY_*` root constants of the
stdlib `winreg` module (with their actual values).  The real module exposes
further attributes (functions and access flags) that are not meaningful as
roots; the claims only exercise root tokens, for which this table is exact.
An absent attribute raises `AttributeError`. -/
def winregAttr (s : PStr) : Option Nat :=
  if s = "HKEY_CLASSES_ROOT".toList then Option.some 2147483648
  else if s = "HKEY_CURRENT_USER".toList then Option.some 2147483649
  else if s = "HKEY_LOCAL_MACHINE".toList then Option.some 2147483650
  else if s = "HKEY_USERS".toList then Option.some 2147483651
  else if s = "HKEY_PERFORMANCE_DATA".toList then Option.some 2147483652
  else if s = "HKEY_CURRENT_CONFIG".toList then Option.some 2147483653
  else if s = "HKEY_DYN_DATA".toList then Option.some 2147483654
  else Option.none

/-- `parse_path` from `winregistry/utils.py`:
`_root, key_path = path.split("\\", maxsplit=1)` (raising `ValueError` when
there is no separator), then `getattr(winreg, expand_short_root(_root.upper()))`
(raising `AttributeError` for an unknown root — note this happens BEFORE the
emptiness check), then `ValueError` if `key_path` is empty. -/
def parse_path (path : PStr) : Except PyErr (Nat × PStr) :=
  match splitFirst path with
  | Option.none => .error .valueErr
  | Option.some (root0, key_path) =>
      match winregAttr (expand_short_root (upperStr root0)) with
      | Option.none => .error .attrErr
      | Option.some reg_root =>
          if key_path = [] then .error .valueErr else .ok (reg_root, key_path)

/-- Access constants from the stdlib `winreg` module. -/
def KEY_READ : Nat := 131097

def KEY_WRITE : Nat := 131078

def KEY_SET_VALUE : Nat := 2

def KEY_WOW64_32KEY : Nat := 512

def KEY_WOW64_64KEY : Nat := 256

/-- `get_access_key` from `winregistry/utils.py`. -/
def get_access_key (access : Nat) (key_wow64_32key : Bool := false) : Nat :=
  access ||| (if key_wow64_32key then KEY_WOW64_32KEY else KEY_WOW64_64KEY)

/-! ## Handle manager and registry client (`winregistry/winregistry.py`)

The OS registry is modelled as explicit state: a list of existing keys
`(root constant, relative path)` — one entry per key, in enumeration order —
plus a list of value entries.  Every `winreg` call is recorded as an event,
so that claims about call sequences (connects, opens, closes, creates,
deletes, enumerations) can be stated as trace properties. -/

/-- A value entry of the underlying store: owning root and key path, value
name, data (opaque — the stdlib `winreg` returns already-decoded objects)
and wire type code. -/
structure VEntry where
  root : Nat
  key : PStr
  name : PStr
  data : Nat
  vtype : Nat
deriving DecidableEq, Repr

/-- Client plus OS state.  `client` and `rootAttr` model `self._client` and
`self._root`; note that the source never assigns `self._root` after
`__init__`, and the model mirrors that faithfully (no operation writes
`rootAttr`).  `reg`/`vals` model the external store. -/
structure WRState where
  host : Option PStr
  client : Option Nat
  rootAttr : Option Nat
  reg : List (Nat × PStr)
  vals : List VEntry
deriving DecidableEq, Repr

/-- `WinRegistry(host)`: `self._client = None`, `self._root = None`. -/
def initState (host : Option PStr) (reg : List (Nat × PStr)) (vals : List VEntry) :
    WRState :=
  { host := host, client := Option.none, rootAttr := Option.none,
    reg := reg, vals := vals }

/-- OS / client calls recorded in the trace.  `openK` and `enumK` and
`deleteK` carry a success flag; a `connect` is always successful here
(no remote hosts in the modelled scenarios). -/
inductive Event where
  | connect (host : Option PStr) (root : Nat)
  | openK (root : Nat) (sub : PStr) (access : Nat) (ok : Bool)
  | closeH (root : Nat) (sub : PStr)
  | queryK (root : Nat) (sub : PStr)
  | enumK (root : Nat) (sub : PStr) (idx : Nat) (ok : Bool)
  | createK (root : Nat) (sub : PStr) (tail : PStr)
  | deleteK (root : Nat) (sub : PStr) (leaf : PStr) (ok : Bool)
  | queryV (root : Nat) (sub : PStr) (name : PStr)
  | setV (root : Nat) (sub : PStr) (name : PStr)
  | deleteV (root : Nat) (sub : PStr) (name : PStr) (ok : Bool)
deriving DecidableEq, Repr

abbrev Trace := List Event

/-- The name of `q` as an immediate child of key path `p`
(`q = p ++ "\\" ++ c` with `c` backslash-free). -/
def childOf (p q : PStr) : Option PStr :=
  if (p ++ ['\\']).isPrefixOf q then
    let c := q.drop (p.length + 1)
    if '\\' ∈ c then Option.none else Option.some c
  else Option.none

/-- Immediate child-key names of `(r, p)`, in store order (the order
`EnumKey` enumerates them). -/
def childNames (reg : List (Nat × PStr)) (r : Nat) (p : PStr) : List PStr :=
  reg.filterMap (fun kv => if kv.1 = r then childOf p kv.2 else Option.none)

/-- Value entries of the key `(r, p)`, in store order. -/
def valsFor (vals : List VEntry) (r : Nat) (p : PStr) : List VEntry :=
  vals.filter (fun v => v.root == r && v.key == p)

/-- Open the relative path under the connected root handle
(`OpenKey(key=self._client, sub_key=path, ...)`): succeeds iff the key
exists, else `FileNotFoundError`. -/
def openAfter (st : WRState) (c : Nat) (path : PStr) (acc : Nat) (tr : Trace) :
    Except PyErr (Nat × PStr) × WRState × Trace :=
  if (c, path) ∈ st.reg then (.ok (c, path), st, tr ++ [Event.openK c path acc true])
  else (.error .fileNotFound, st, tr ++ [Event.openK c path acc false])

/-- `WinRegistry._get_handler`: parse the path, reconnect when
`not self._client or root != self._root`, then open the relative path with
the composed access mask.  Because `self._root` is never assigned, the
reconnection test compares the parsed root against `None`. -/
def getHandler (st : WRState) (key : PStr) (access : Nat) (key_wow64_32key : Bool) :
    Except PyErr (Nat × PStr) × WRState × Trace :=
  match parse_path key with
  | .error e => (.error e, st, [])
  | .ok (root, path) =>
      let acc := get_access_key access key_wow64_32key
      match st.client with
      | Option.none =>
          openAfter { st with client := Option.some root } root path acc
            [Event.connect st.host root]
      | Option.some c =>
          if Option.some root ≠ st.rootAttr then
            openAfter { st with client := Option.some root } root path acc
              [Event.connect st.host root]
          else openAfter st c path acc []

/-- `RegEntry` (from `winregistry/models.py`), with the opaque decoded value. -/
structure RegEntryM where
  name : PStr
  reg_key : PStr
  value : Nat
  vtype : Nat
  host : Option PStr
deriving DecidableEq, Repr

/-- `RegKey` (from `winregistry/models.py`); `modify_at` is kept as the raw
microsecond count `modify / 10` (the added 1601-01-01 epoch offset is a
constant irrelevant to the claims). -/
structure RegKeyM where
  name : PStr
  reg_keys : List PStr
  entries : List RegEntryM
  modify_at : Nat
deriving DecidableEq, Repr

/-- The `EnumKey` loop of `read_key`: enumerate child names by index
`i, i+1, ...` (`remaining` iterations), reading the store state fixed at
query time (read-only, so it does not change during the loop). -/
def enumKeysLoop (reg : List (Nat × PStr)) (h : Nat × PStr) :
    Nat → Nat → Except PyErr (List PStr) × Trace
  | _, 0 => (.ok [], [])
  | i, r + 1 =>
      match (childNames reg h.1 h.2).get? i with
      | Option.some c =>
          match enumKeysLoop reg h (i + 1) r with
          | (.ok cs, tr) => (.ok (c :: cs), Event.enumK h.1 h.2 i true :: tr)
          | (.error e, tr) => (.error e, Event.enumK h.1 h.2 i true :: tr)
      | Option.none => (.error .osErr, [Event.enumK h.1 h.2 i false])

/-- The `EnumValue` loop of `read_key`. -/
def enumValsLoop (st : WRState) (h : Nat × PStr) (keyName : PStr) :
    Nat → Nat → Except PyErr (List RegEntryM) × Trace
  | _, 0 => (.ok [], [])
  | i, r + 1 =>
      match (valsFor st.vals h.1 h.2).get? i with
      | Option.some v =>
          match enumValsLoop st h keyName (i + 1) r with
          | (.ok es, tr) =>
              (.ok ({ name := v.name, reg_key := keyName, value := v.data,
                      vtype := v.vtype, host := st.host } :: es),
               Event.queryV h.1 h.2 v.name :: tr)
          | (.error e, tr) => (.error e, Event.queryV h.1 h.2 v.name :: tr)
      | Option.none => (.error .osErr, [Event.queryV h.1 h.2 [] ])

/-- `WinRegistry.read_key`: open with `KEY_READ`, `QueryInfoKey`, enumerate
child keys then values by index, return the snapshot.  No close is issued. -/
def read_key (st : WRState) (name : PStr) (key_wow64_32key : Bool := false) :
    Except PyErr RegKeyM × WRState × Trace :=
  match getHandler st name KEY_READ key_wow64_32key with
  | (.error e, st', tr) => (.error e, st', tr)
  | (.ok h, st', tr) =>
      let keysNum := (childNames st'.reg h.1 h.2).length
      let valuesNum := (valsFor st'.vals h.1 h.2).length
      let tr := tr ++ [Event.queryK h.1 h.2]
      match enumKeysLoop st'.reg h 0 keysNum with
      | (.error e, tr2) => (.error e, st', tr ++ tr2)
      | (.ok keys, tr2) =>
          match enumValsLoop st' h name 0 valuesNum with
          | (.error e, tr3) => (.error e, st', tr ++ tr2 ++ tr3)
          | (.ok entries, tr3) =>
              (.ok { name := name, reg_keys := keys, entries := entries,
                     modify_at := 0 },
               st', tr ++ tr2 ++ tr3)

/-- `WinRegistry.read_entry`: open with `KEY_READ`, `QueryValueEx`.  No close
is issued. -/
def read_entry (st : WRState) (reg_key name : PStr)
    (key_wow64_32key : Bool := false) :
    Except PyErr RegEntryM × WRState × Trace :=
  match getHandler st reg_key KEY_READ key_wow64_32key with
  | (.error e, st', tr) => (.error e, st', tr)
  | (.ok h, st', tr) =>
      match (valsFor st'.vals h.1 h.2).find? (fun v => v.name == name) with
      | Option.some v =>
          (.ok { name := name, reg_key := reg_key, value := v.data,
                 vtype := v.vtype, host := st'.host },
           st', tr ++ [Event.queryV h.1 h.2 name])
      | Option.none => (.error .fileNotFound, st', tr ++ [Event.queryV h.1 h.2 name])

/-- `WinRegistry.write_entry`: open with `KEY_SET_VALUE`, `SetValueEx`
(upsert).  No close is issued. -/
def write_entry (st : WRState) (reg_key name : PStr) (data vtype : Nat)
    (key_wow64_32key : Bool := false) :
    Except PyErr Unit × WRState × Trace :=
  match getHandler st reg_key KEY_SET_VALUE key_wow64_32key with
  | (.error e, st', tr) => (.error e, st', tr)
  | (.ok h, st', tr) =>
      let vals' := st'.vals.filter
        (fun v => !(v.root == h.1 && v.key == h.2 && v.name == name))
        ++ [{ root := h.1, key := h.2, name := name, data := data, vtype := vtype }]
      (.ok (), { st' with vals := vals' }, tr ++ [Event.setV h.1 h.2 name])

/-- `WinRegistry.delete_entry`: open with `KEY_SET_VALUE`, `DeleteValue`
(`FileNotFoundError` when the value is absent).  No close is issued. -/
def delete_entry (st : WRState) (key name : PStr)
    (key_wow64_32key : Bool := false) :
    Except PyErr Unit × WRState × Trace :=
  match getHandler st key KEY_SET_VALUE key_wow64_32key with
  | (.error e, st', tr) => (.error e, st', tr)
  | (.ok h, st', tr) =>
      let vals' := st'.vals.filter
        (fun v => !(v.root == h.1 && v.key == h.2 && v.name == name))
      if (valsFor st'.vals h.1 h.2).any (fun v => v.name == name) then
        (.ok (), { st' with vals := vals' }, tr ++ [Event.deleteV h.1 h.2 name true])
      else (.error .fileNotFound, st', tr ++ [Event.deleteV h.1 h.2 name false])

/-- `DeleteKey(handle, key_name)`: delete the named immediate subkey of the
handle's key; `FileNotFoundError` when absent, `PermissionError` (access
denied) when it still has subkeys. -/
def deleteKeyOS (st : WRState) (h : Nat × PStr) (leaf : PStr) :
    Except PyErr Unit × WRState × Trace :=
  let target := h.2 ++ '\\' :: leaf
  if (h.1, target) ∈ st.reg then
    if childNames st.reg h.1 target = [] then
      (.ok (), { st with reg := st.reg.erase (h.1, target) },
       [Event.deleteK h.1 h.2 leaf true])
    else (.error .permissionErr, st, [Event.deleteK h.1 h.2 leaf false])
  else (.error .fileNotFound, st, [Event.deleteK h.1 h.2 leaf false])

/-- `WinRegistry.delete_key`: `parental, key_name = name.rsplit("\\", 1)`
(raising `ValueError` when `name` has no separator — and note that when
`name` is `ROOT\leaf` the parental part is the bare root token, which
`parse_path` then rejects), open the parent with `KEY_WRITE`, `DeleteKey`.
No close is issued. -/
def delete_key (st : WRState) (name : PStr) (key_wow64_32key : Bool := false) :
    Except PyErr Unit × WRState × Trace :=
  match rsplitLast name with
  | Option.none => (.error .valueErr, st, [])
  | Option.some (parental, key_name) =>
      match getHandler st parental KEY_WRITE key_wow64_32key with
      | (.error e, st', tr) => (.error e, st', tr)
      | (.ok h, st', tr) =>
          match deleteKeyOS st' h key_name with
          | (res, st'', tr2) => (res, st'', tr ++ tr2)

/-- `CreateKeyEx(key=handler, sub_key=tail, ...)`: create every missing
segment of `tail` below the handle's key (an empty `tail` simply opens the
key itself — open-or-create). -/
def createChain (reg : List (Nat × PStr)) (r : Nat) (base : PStr) :
    List PStr → List (Nat × PStr)
  | [] => reg
  | seg :: rest =>
      let p := base ++ '\\' :: seg
      createChain (if (r, p) ∈ reg then reg else reg ++ [(r, p)]) r p rest

/-- The ancestor-search loop of `WinRegistry.create_key`:
`while i < len(sub_keys) and not handler: try open "\\".join(sub_keys[:len-i])
except FileNotFoundError: i += 1`.  `remaining` is `len(sub_keys) - i`, so
the attempted prefix is `sub_keys.take remaining`; a success returns the
handle together with `remaining` (which equals the source's `before_index =
len(sub_keys) - i`).  Any exception other than `FileNotFoundError`
(in particular the `ValueError` from parsing the bare root token) propagates
out of the loop. -/
def createSearch (subKeys : List PStr) (key_wow64_32key : Bool) :
    Nat → WRState → Except PyErr (Option ((Nat × PStr) × Nat)) × WRState × Trace
  | 0, st => (.ok Option.none, st, [])
  | r + 1, st =>
      let current := joinBS (subKeys.take (r + 1))
      match getHandler st current KEY_WRITE key_wow64_32key with
      | (.ok hd, st', tr) => (.ok (Option.some (hd, r + 1)), st', tr)
      | (.error .fileNotFound, st', tr) =>
          match createSearch subKeys key_wow64_32key r st' with
          | (res, st'', tr') => (res, st'', tr ++ tr')
      | (.error e, st', tr) => (.error e, st', tr)

/-- `WinRegistry.create_key`: ancestor search, then a single
`CreateKeyEx(handler, tail)` where `tail = "\\".join(sub_keys[before_index:])`. -/
def create_key (st : WRState) (name : PStr) (key_wow64_32key : Bool := false) :
    Except PyErr Unit × WRState × Trace :=
  let subKeys := splitAll name
  match createSearch subKeys key_wow64_32key subKeys.length st with
  | (.error e, st', tr) => (.error e, st', tr)
  | (.ok Option.none, st', tr) => (.error .noneHandler, st', tr)
  | (.ok (Option.some (handler, beforeIndex)), st', tr) =>
      let tail := joinBS (subKeys.drop beforeIndex)
      let st'' :=
        if tail = [] then st'
        else { st' with reg := createChain st'.reg handler.1 handler.2 (splitAll tail) }
      (.ok (), st'', tr ++ [Event.createK handler.1 handler.2 tail])

/-- `EnumKey(handle, idx)` against the CURRENT store state (the key list may
have changed since `QueryInfoKey`); out-of-range raises `OSError`. -/
def enumKeyOS (st : WRState) (h : Nat × PStr) (idx : Nat) :
    Except PyErr PStr × Event :=
  match (childNames st.reg h.1 h.2).get? idx with
  | Option.some c => (.ok c, Event.enumK h.1 h.2 idx true)
  | Option.none => (.error .osErr, Event.enumK h.1 h.2 idx false)

/-- The `for key_i in range(0, keys_num)` loop of `delete_key_tree`:
`EnumKey(handle, key_i)` against the mutating store, then recurse on
`f"{name}\\{key}"`.  `recur` is the recursive call at the next fuel level;
`remaining = keys_num - key_i` counts the iterations still due. -/
def dktLoop (recur : WRState → PStr → Except PyErr Unit × WRState × Trace)
    (h : Nat × PStr) (name : PStr) :
    Nat → Nat → WRState → Except PyErr Unit × WRState × Trace
  | _, 0, st => (.ok (), st, [])
  | i, r + 1, st =>
      match enumKeyOS st h i with
      | (.error e, ev) => (.error e, st, [ev])
      | (.ok child, ev) =>
          match recur st (name ++ '\\' :: child) with
          | (.error e, st', tr) => (.error e, st', ev :: tr)
          | (.ok _, st', tr) =>
              match dktLoop recur h name (i + 1) r st' with
              | (res, st'', tr') => (res, st'', ev :: tr ++ tr')

/-- `WinRegistry.delete_key_tree`: open with `KEY_READ`, `QueryInfoKey`,
loop `EnumKey`/recurse over the pre-read count, `handle.Close()`, then
`delete_key(name)`.  `fuel` bounds the recursion depth (any value at least
the tree depth is enough; exhaustion yields the artificial `fuelOut`). -/
def delete_key_tree (fuel : Nat) (st : WRState) (name : PStr)
    (key_wow64_32key : Bool := false) :
    Except PyErr Unit × WRState × Trace :=
  match fuel with
  | 0 => (.error .fuelOut, st, [])
  | fuel' + 1 =>
      match getHandler st name KEY_READ key_wow64_32key with
      | (.error e, st', tr) => (.error e, st', tr)
      | (.ok h, st', tr) =>
          let keysNum := (childNames st'.reg h.1 h.2).length
          let tr := tr ++ [Event.queryK h.1 h.2]
          match dktLoop (fun s n => delete_key_tree fuel' s n key_wow64_32key)
              h name 0 keysNum st' with
          | (.error e, st'', tr2) => (.error e, st'', tr ++ tr2)
          | (.ok _, st'', tr2) =>
              let tr := tr ++ tr2 ++ [Event.closeH h.1 h.2]
              match delete_key st'' name key_wow64_32key with
              | (res, st''', tr3) => (res, st''', tr ++ tr3)

/-! ## Trace observations -/

/-- Number of `connect` calls in a trace. -/
def connectCount (tr : Trace) : Nat :=
  tr.countP (fun e => match e with | Event.connect _ _ => true | _ => false)

/-- Number of successful `open` calls in a trace. -/
def openOkCount (tr : Trace) : Nat :=
  tr.countP (fun e => match e with | Event.openK _ _ _ ok => ok | _ => false)

/-- Number of `close` calls in a trace. -/
def closeCount (tr : Trace) : Nat :=
  tr.countP (fun e => match e with | Event.closeH _ _ => true | _ => false)

/-- The successful key-delete calls of a trace, in order. -/
def deletesOf (tr : Trace) : Trace :=
  tr.filter (fun e => match e with | Event.deleteK _ _ _ ok => ok | _ => false)

/-! ## Auxiliary predicates and expected shapes used by the theorems -/

/-- A byte list with no two adjacent zero bytes (so the `UTF16LE_NULL`
pattern cannot match anywhere in it). -/
def noDZ : List Nat → Bool
  | b1 :: b2 :: rest => !(b1 == 0 && b2 == 0) && noDZ (b2 :: rest)
  | _ => true

/-- Code units of printable-ASCII range `[1, 127]`. -/
def asciiStr (s : List Nat) : Prop := ∀ c ∈ s, 1 ≤ c ∧ c ≤ 127

/-- Code units that are genuine UTF-16 units whose LOW byte lies in
`[0x01, 0x7f]` (so their encoding contains no `00 00` pair). -/
def lowAscii (s : List Nat) : Prop :=
  ∀ c ∈ s, c < 65536 ∧ 1 ≤ c % 256 ∧ c % 256 ≤ 127

/-- The spec's stated `REG_MULTI_SZ` wire shape: every element's UTF-16-LE
bytes followed by a double-zero (separator between consecutive elements plus
one more double-zero after the last). -/
def multiSpec (l : List (List Nat)) : List Nat :=
  ((l.map utf16le).map (fun p => p ++ [0, 0])).flatten

/-- `HKEY_LOCAL_MACHINE` of the stdlib `winreg` module. -/
def HKEY_LOCAL_MACHINE : Nat := 2147483650

/-- The trace of the `create_key` ancestor search that fails `d` times and
succeeds on the prefix of `k` path segments (root token plus `k - 1` relative
segments): element `t` of the descent probes the prefix of `k + d - t`
segments; each probe reconnects (because `self._root` is never assigned) and
then attempts the open, only the last one succeeding. -/
def probeTrace (host : Option PStr) (rootVal acc : Nat) (tailSegs : List PStr)
    (k : Nat) : Nat → Trace
  | 0 => [Event.connect host rootVal,
          Event.openK rootVal (joinBS (tailSegs.take (k - 1))) acc true]
  | d + 1 => Event.connect host rootVal
      :: Event.openK rootVal (joinBS (tailSegs.take (k + d))) acc false
      :: probeTrace host rootVal acc tailSegs k d

/-- The trace of a `create_key` ancestor search in which every probed prefix
of at least two segments is absent: `d` failing probes (down to the prefix of
two segments), after which parsing the bare root token raises `ValueError`
without any further OS call. -/
def failTrace (host : Option PStr) (rootVal acc : Nat) (tailSegs : List PStr) :
    Nat → Trace
  | 0 => []
  | d + 1 => Event.connect host rootVal
      :: Event.openK rootVal (joinBS (tailSegs.take (d + 1))) acc false
      :: failTrace host rootVal acc tailSegs d

/-! # Theorems -/

/-! ## Codec lemmas -/

theorem utf16le_length (s : List Nat) : (utf16le s).length = 2 * s.length := by
  induction s with
  | nil => rfl
  | cons c rest ih =>
      simp [utf16le, List.flatMap_cons] at ih ⊢
      omega

theorem utf16le_cons (c : Nat) (s : List Nat) :
    utf16le (c :: s) = c % 256 :: c / 256 % 256 :: utf16le s := by
  simp [utf16le, List.flatMap_cons]

theorem utf16leDec_utf16le (s : List Nat) (h : ∀ c ∈ s, c < 65536) :
    utf16leDec (utf16le s) = Option.some s := by
  induction s with
  | nil => rfl
  | cons c rest ih =>
      rw [utf16le_cons]
      have hc : c < 65536 := h c (by simp)
      have hrest := ih (fun c hc => h c (by simp [hc]))
      match hu : utf16le rest with
      | [] =>
          simp [utf16leDec, hu] at hrest ⊢
          subst hrest
          simp [utf16leDec]
          omega
      | b :: bs =>
          rw [hu] at hrest
          simp [utf16leDec, hrest]
          omega

theorem splitNull_noDZ (l : List Nat) :
    ∀ blocked acc, noDZ l = true →
      splitNull blocked acc l = [acc.reverse ++ l] := by
  induction l with
  | nil => intro blocked acc _; simp [splitNull]
  | cons b1 rest ih =>
      intro blocked acc hn
      match rest with
      | [] => simp [splitNull]
      | b2 :: rest' =>
          have hne : ¬(b1 = 0 ∧ b2 = 0 ∧ blocked = false) := by
            simp [noDZ] at hn
            rcases hn.1 with h | h
            · exact fun hx => h hx.1
            · exact fun hx => h hx.2.1
          have hn' : noDZ (b2 :: rest') = true := by
            simp [noDZ] at hn
            exact hn.2
          rw [splitNull, if_neg hne, ih _ _ hn']
          simp

theorem noDZ_utf16le (s : List Nat) (h : ∀ c ∈ s, 1 ≤ c % 256 ∧ c % 256 ≤ 127) :
    noDZ (utf16le s) = true := by
  induction s with
  | nil => rfl
  | cons c rest ih =>
      rw [utf16le_cons]
      have hc := h c (by simp)
      have ihr := ih (fun c hc => h c (by simp [hc]))
      have hlo : ¬(c % 256 = 0) := by omega
      match hu : utf16le rest with
      | [] => simp [noDZ, hlo]
      | b :: bs =>
          have hb : ¬(b = 0) := by
            match rest, hu with
            | c' :: rest', hu =>
                rw [utf16le_cons] at hu
                have := h c' (by simp)
                cases hu
                omega
          rw [hu] at ihr
          simp [noDZ, hlo, hb]
          simpa [noDZ] using ihr

/-- Scanning an ASCII-encoded string followed by a double-zero separator:
the separator is found (and only it), regardless of what follows. -/
theorem splitNull_ascii_sep (s : List Nat) (h : asciiStr s) :
    ∀ acc R, splitNull false acc (utf16le s ++ 0 :: 0 :: R)
      = (acc.reverse ++ utf16le s) :: splitNull false [] R := by
  induction s with
  | nil => intro acc R; simp [utf16le, splitNull]
  | cons c rest ih =>
      intro acc R
      have hc := h c (by simp)
      have hrest : asciiStr rest := fun c hc => h c (by simp [hc])
      have hclo : c % 256 = c := Nat.mod_eq_of_lt (by omega)
      have hchi : c / 256 % 256 = 0 := by
        have : c / 256 = 0 := Nat.div_eq_of_lt (by omega)
        simp [this]
      rw [utf16le_cons, hclo, hchi]
      have hc0 : ¬(c = 0 ∧ (0 : Nat) = 0 ∧ False) := by simp
      match hu : utf16le rest with
      | [] =>
          -- bytes: c :: 0 :: 0 :: 0 :: R
          have hs : rest = [] := by
            cases rest with
            | nil => rfl
            | cons c' r' => rw [utf16le_cons] at hu; cases hu
          subst hs
          simp only [utf16le, List.flatMap_nil, List.nil_append, List.cons_append]
          rw [splitNull, if_neg (by simp [isA]; omega)]
          rw [splitNull, if_neg (by simp [isA]; omega)]
          rw [splitNull, if_pos (by simp [isA])]
          simp
      | b :: bs =>
          -- b is the low byte of the next unit, hence non-zero
          have hb : ¬(b = 0) := by
            match rest, hu with
            | c' :: rest', hu =>
                rw [utf16le_cons] at hu
                have := hrest c' (by simp)
                cases hu
                omega
          have := ih hrest (0 :: c :: acc) R
          rw [hu] at this
          simp only [List.cons_append]
          rw [splitNull, if_neg (by intro hx; omega)]
          rw [splitNull, if_neg (by intro hx; exact hb hx.2.1)]
          simp only [isA]
          rw [show (decide (1 ≤ (0:Nat) ∧ (0:Nat) ≤ 127) : Bool) = false by decide]
          simpa using this

/-- Splitting the separator-joined encodings of ASCII strings followed by a
double-zero and an arbitrary remainder recovers each encoding and continues
in the remainder. -/
theorem splitNull_joinNull (s : List Nat) (l : List (List Nat))
    (h : ∀ t ∈ s :: l, asciiStr t) :
    ∀ R, splitNull false [] (joinNull ((s :: l).map utf16le) ++ 0 :: 0 :: R)
      = (s :: l).map utf16le ++ splitNull false [] R := by
  induction l generalizing s with
  | nil =>
      intro R
      simpa using splitNull_ascii_sep s (h s (by simp)) [] R
  | cons t l' ih =>
      intro R
      have hw := splitNull_ascii_sep s (h s (by simp)) []
        (joinNull ((t :: l').map utf16le) ++ 0 :: 0 :: R)
      have hjoin : joinNull ((s :: t :: l').map utf16le) ++ 0 :: 0 :: R
          = utf16le s ++ 0 :: 0 :: (joinNull ((t :: l').map utf16le) ++ 0 :: 0 :: R) := by
        simp [joinNull]
      rw [hjoin, hw, ih t (fun u hu => h u (by simp at hu ⊢; tauto)) R]
      simp

/-- Splitting the separator-joined encodings of ASCII strings with no
trailing separator recovers exactly the encodings. -/
theorem splitNull_joinNull_noTail (s : List Nat) (l : List (List Nat))
    (h : ∀ t ∈ s :: l, asciiStr t) :
    splitNull false [] (joinNull ((s :: l).map utf16le)) = (s :: l).map utf16le := by
  induction l generalizing s with
  | nil =>
      have ha : lowAscii s := by
        intro c hc
        have := h s (by simp) c hc
        constructor
        · omega
        · rw [Nat.mod_eq_of_lt (by omega)]; omega
      simpa [joinNull] using
        splitNull_noDZ (utf16le s) false []
          (noDZ_utf16le s (fun c hc => (ha c hc).2))
  | cons t l' ih =>
      have hjoin : joinNull ((s :: t :: l').map utf16le)
          = utf16le s ++ 0 :: 0 :: joinNull ((t :: l').map utf16le) := by
        simp [joinNull]
      rw [hjoin, splitNull_ascii_sep s (h s (by simp)) [],
          ih t (fun u hu => h u (by simp at hu ⊢; tauto))]
      simp

/-- `decodeSegs` on decodable nonempty segments followed by either nothing or
a list starting with the empty terminator segment yields the decoded list. -/
theorem decodeSegs_parts (l : List (List Nat)) (rest : List (List Nat))
    (h : ∀ t ∈ l, t ≠ [] ∧ ∀ c ∈ t, c < 65536)
    (hrest : rest = [] ∨ ∃ r', rest = [] :: r') :
    decodeSegs (l.map utf16le ++ rest) = .ok l := by
  induction l with
  | nil =>
      rcases hrest with h0 | ⟨r', h0⟩ <;> subst h0 <;> simp [decodeSegs]
  | cons s l' ih =>
      have hs := h s (by simp)
      have hne : ¬(utf16le s = []) := by
        intro hx
        have := utf16le_length s
        rw [hx] at this
        exact hs.1 (by cases s with
          | nil => rfl
          | cons a b => simp at this)
      simp only [List.map_cons, List.cons_append, decodeSegs]
      rw [if_neg hne, utf16leDec_utf16le s hs.2]
      simp only [List.append_eq]
      rw [ih (fun t ht => h t (by simp [ht]))]

/-- `multiSpec` is what the source's separator-join produces once the list is
nonempty. -/
theorem joinNull_multiSpec (s : List Nat) (l : List (List Nat)) :
    joinNull ((s :: l).map utf16le ++ [[]]) = multiSpec (s :: l) := by
  induction l generalizing s with
  | nil => simp [joinNull, multiSpec]
  | cons t l' ih =>
      have := ih t
      simp only [multiSpec, List.map_cons, List.map_nil, List.flatten] at this ⊢
      simp only [List.map_cons, List.cons_append, joinNull] at this ⊢
      simp only [List.append_eq] at this ⊢
      rw [this]
      simp

/-- The joined length of the encodings is even. -/
theorem joinNull_length_even (l : List (List Nat)) :
    (joinNull (l.map utf16le)).length % 2 = 0 := by
  induction l with
  | nil => rfl
  | cons s l' ih =>
      cases l' with
      | nil => simp [joinNull, utf16le_length]
      | cons t l'' =>
          simp only [List.map_cons, joinNull] at ih ⊢
          simp [List.length_append, utf16le_length]
          omega

theorem encodeElems_strs (l : List (List Nat)) :
    encodeElems (l.map PyVal.str) = .ok (l.map utf16le) := by
  induction l with
  | nil => rfl
  | cons s l' ih => simp [encodeElems, ih]

theorem joinNull_append_nil (p : List Nat) (ps : List (List Nat)) :
    joinNull ((p :: ps) ++ [[]]) = joinNull (p :: ps) ++ [0, 0] := by
  induction ps generalizing p with
  | nil => rfl
  | cons q ps' ih =>
      show p ++ 0 :: 0 :: joinNull ((q :: ps') ++ [[]])
          = (p ++ 0 :: 0 :: joinNull (q :: ps')) ++ [0, 0]
      rw [ih q]
      simp

theorem asciiStr_lowAscii (s : List Nat) (h : asciiStr s) : lowAscii s := by
  intro c hc
  have := h c hc
  refine ⟨by omega, ?_, ?_⟩ <;> rw [Nat.mod_eq_of_lt (by omega)] <;> omega

theorem splitNull_utf16le_single (s : List Nat) (h : lowAscii s) :
    splitNull false [] (utf16le s) = [utf16le s] := by
  simpa using splitNull_noDZ (utf16le s) false []
    (noDZ_utf16le s (fun c hc => (h c hc).2))

/-! ## Claim C1 (round-trip) -/

/-- C1 counterexample: the claim asserts the codec round-trip for "a list
containing one empty-string element", but the source's `reg_to_py` stops at
the FIRST empty segment, so `decode(encode([u''], REG_MULTI_SZ))` is the
empty list, not `[u'']`: the claim fails at this concrete input. -/
theorem c1_roundtrip_cex :
    roundTrip (PyVal.list [PyVal.str []]) REG_MULTI_SZ = .ok (PyVal.list [])
    ∧ (Except.ok (PyVal.list []) : Except CodecErr PyVal)
        ≠ .ok (PyVal.list [PyVal.str []]) := by
  constructor
  · rfl
  · intro h
    simp at h

/-- C1 amended: `decode(encode(v, t), t) == v` holds for `REG_DWORD` on every
integer below `2^32` (in particular the maximum 32-bit integer), for the
string types on every string whose UTF-16 units have a low byte in
`[0x01, 0x7f]` (in particular the empty string and all printable-ASCII
strings), for `REG_MULTI_SZ` on the empty list and on every list of
NONEMPTY printable-ASCII strings, and for `REG_BINARY` on every nonempty
byte value — but NOT for a list containing an empty-string element (see the
counterexample): the decoder stops at the first empty segment, so empty
elements cannot survive the round trip. -/
theorem c1_roundtrip_amended :
    (∀ n, n < 4294967296 → roundTrip (PyVal.int n) REG_DWORD = .ok (PyVal.int n))
    ∧ (∀ s, lowAscii s →
        roundTrip (PyVal.str s) REG_SZ = .ok (PyVal.str s)
        ∧ roundTrip (PyVal.str s) REG_EXPAND_SZ = .ok (PyVal.str s))
    ∧ roundTrip (PyVal.list []) REG_MULTI_SZ = .ok (PyVal.list [])
    ∧ (∀ l : List (List Nat), (∀ s ∈ l, s ≠ [] ∧ asciiStr s) →
        roundTrip (PyVal.list (l.map PyVal.str)) REG_MULTI_SZ
          = .ok (PyVal.list (l.map PyVal.str)))
    ∧ (∀ b : List Nat, b ≠ [] →
        roundTrip (PyVal.bytes b) REG_BINARY = .ok (PyVal.bytes b)) := by
  refine ⟨?_, ?_, rfl, ?_, ?_⟩
  · intro n hn
    simp only [roundTrip, py_to_reg, reg_to_py, REG_DWORD, le32]
    norm_num [hn]
    omega
  · intro s hs
    have hds : (2 * s.length + 1) % 2 = 1 := by omega
    have htake : List.take (2 * s.length) (utf16le s ++ [0]) = utf16le s := by
      have h : 2 * s.length = (utf16le s).length := (utf16le_length s).symm
      rw [h, List.take_left]
    have hsplit := splitNull_utf16le_single s hs
    have hdec := utf16leDec_utf16le s (fun c hc => (hs c hc).1)
    constructor
    · simp only [roundTrip, py_to_reg, reg_to_py, REG_SZ, REG_DWORD, REG_EXPAND_SZ]
      norm_num
      rw [utf16le_length s, if_pos hds,
          if_pos (by omega : 2 * s.length < 2 * s.length + 1),
          htake, hsplit]
      simp [List.headI, hdec]
    · simp only [roundTrip, py_to_reg, reg_to_py, REG_SZ, REG_DWORD, REG_EXPAND_SZ]
      norm_num
      rw [utf16le_length s, if_pos hds,
          if_pos (by omega : 2 * s.length < 2 * s.length + 1),
          htake, hsplit]
      simp [List.headI, hdec]
  · intro l hl
    cases l with
    | nil => rfl
    | cons s l' =>
        have henc := encodeElems_strs (s :: l')
        have heven := joinNull_length_even (s :: l')
        have hjn := joinNull_append_nil (utf16le s) (l'.map utf16le)
        have hsp := splitNull_joinNull s l' (fun t ht => (hl t ht).2) []
        have hdec := decodeSegs_parts (s :: l') [[]]
          (fun t ht => ⟨(hl t ht).1, fun c hc => by have := (hl t ht).2 c hc; omega⟩)
          (Or.inr ⟨[], rfl⟩)
        simp only [List.map_cons, List.cons_append,
          show splitNull false [] ([] : List Nat) = [[]] from rfl]
          at henc heven hjn hsp hdec
        simp only [roundTrip, py_to_reg, reg_to_py, REG_MULTI_SZ, REG_DWORD,
          REG_SZ, REG_EXPAND_SZ, List.map_cons]
        norm_num [henc]
        rw [hjn]
        have hc1 : ¬((joinNull (utf16le s :: List.map utf16le l') ++ [0, 0]).length % 2
            = 1) := by
          simp only [List.length_append] at heven ⊢
          simp
          omega
        rw [if_neg hc1, if_neg (lt_irrefl _), hsp, hdec]
        simp
  · intro b hb
    simp only [roundTrip, py_to_reg, reg_to_py, REG_BINARY, REG_DWORD,
      REG_SZ, REG_EXPAND_SZ, REG_MULTI_SZ]
    norm_num
    intro h
    exact absurd h hb

/-- C1 witness: the amended round-trip theorem applied at the maximum 32-bit
integer, the one-character string `u'A'`, the one-element list `[u'A']` and
the byte value `'\x07'`. -/
theorem c1_roundtrip_witness :
    roundTrip (PyVal.int 4294967295) REG_DWORD = .ok (PyVal.int 4294967295)
    ∧ roundTrip (PyVal.str [65]) REG_SZ = .ok (PyVal.str [65])
    ∧ roundTrip (PyVal.list [PyVal.str [65]]) REG_MULTI_SZ
        = .ok (PyVal.list [PyVal.str [65]])
    ∧ roundTrip (PyVal.bytes [7]) REG_BINARY = .ok (PyVal.bytes [7]) :=
  ⟨c1_roundtrip_amended.1 4294967295 (by norm_num),
   (c1_roundtrip_amended.2.1 [65]
      (by intro c hc; simp at hc; subst hc; norm_num)).1,
   by
     have h := c1_roundtrip_amended.2.2.2.1 [[65]]
       (by
         intro t ht
         simp at ht
         subst ht
         exact ⟨by simp, by intro c hc; simp at hc; omega⟩)
     simpa using h,
   c1_roundtrip_amended.2.2.2.2 [7] (by simp)⟩

/-! ## Claim C7 (encode terminator convention) -/

theorem encodeElems_bad (pre : List (List Nat)) (v : PyVal) (post : List PyVal)
    (hv : ∀ x, v ≠ PyVal.str x) (hb : ∀ b, v ≠ PyVal.bytes b) :
    encodeElems (pre.map PyVal.str ++ v :: post) = .error .valueError := by
  induction pre with
  | nil =>
      cases v with
      | str s => exact absurd rfl (hv s)
      | bytes b => exact absurd rfl (hb b)
      | int n => rfl
      | list l => rfl
      | none => rfl
  | cons p pre' ih =>
      simp only [List.map_cons, List.cons_append, encodeElems, List.append_eq]
      rw [ih]

/-- C7 counterexample: the claim says a string encodes as its UTF-16-LE bytes
followed by a DOUBLE-zero terminator and the empty list as exactly the
terminator.  In the source, `create_string_buffer(utf16(value))` appends a
SINGLE NUL byte (so `u''` encodes as the 1-byte buffer `00`, not `00 00`),
and `'\x00\x00'.join([utf16(u'')])` is the EMPTY buffer (the empty list
encodes as 0 bytes, not as a terminator). -/
theorem c7_encode_cex :
    py_to_reg (PyVal.str []) REG_SZ = .ok [0]
    ∧ (Except.ok [0] : Except CodecErr (List Nat)) ≠ .ok [0, 0]
    ∧ py_to_reg (PyVal.list []) REG_MULTI_SZ = .ok []
    ∧ (Except.ok [] : Except CodecErr (List Nat)) ≠ .ok [0, 0] := by
  refine ⟨rfl, by simp, rfl, by simp⟩

/-- C7 amended: under the string types `encode` produces the UTF-16-LE bytes
followed by a SINGLE zero byte (the `ctypes` buffer NUL), not a double-zero;
under the string-list type a NONEMPTY list encodes as each element's
UTF-16-LE bytes each followed by a double-zero (equivalently: double-zero
separators between elements plus one trailing double-zero), while the EMPTY
list encodes as the empty buffer, not as a bare terminator.  Elements may be
any `basestring`: a byte-string element is ACCEPTED (decoded with the
locale's preferred encoding, then UTF-16-LE-encoded — shown here on the
ASCII region, where all candidate locale encodings agree), and only an
element that is not a `basestring` at all (an int, a list, or `None`) fails
with `ValueError` (the spec's `InvalidElement`). -/
theorem c7_encode_amended :
    (∀ s, py_to_reg (PyVal.str s) REG_SZ = .ok (utf16le s ++ [0])
        ∧ py_to_reg (PyVal.str s) REG_EXPAND_SZ = .ok (utf16le s ++ [0]))
    ∧ (∀ (x : List Nat) (l : List (List Nat)),
        py_to_reg (PyVal.list ((x :: l).map PyVal.str)) REG_MULTI_SZ
          = .ok (multiSpec (x :: l)))
    ∧ py_to_reg (PyVal.list []) REG_MULTI_SZ = .ok []
    ∧ (∀ b : List Nat, (∀ c ∈ b, c < 128) →
        py_to_reg (PyVal.list [PyVal.bytes b]) REG_MULTI_SZ = .ok (multiSpec [b]))
    ∧ (∀ (pre : List (List Nat)) (v : PyVal) (post : List PyVal),
        (∀ x, v ≠ PyVal.str x) → (∀ b, v ≠ PyVal.bytes b) →
        py_to_reg (PyVal.list (pre.map PyVal.str ++ v :: post)) REG_MULTI_SZ
          = .error .valueError) := by
  refine ⟨?_, ?_, rfl, ?_, ?_⟩
  · intro s
    constructor <;> rfl
  · intro x l
    have henc := encodeElems_strs (x :: l)
    have hms := joinNull_multiSpec x l
    simp only [List.map_cons, List.cons_append] at henc hms
    simp only [py_to_reg, REG_MULTI_SZ, REG_DWORD, REG_SZ, REG_EXPAND_SZ,
      List.map_cons]
    norm_num [henc]
    rw [hms]
  · intro b hb
    have hpd : preferredDecode b = Option.some b := by
      unfold preferredDecode
      rw [if_pos (by simpa [List.all_eq_true] using hb)]
    have henc : encodeElems [PyVal.bytes b] = .ok [utf16le b] := by
      simp [encodeElems, hpd]
    have hms := joinNull_multiSpec b []
    simp only [List.map_cons, List.map_nil, List.cons_append,
      List.nil_append] at hms
    simp only [py_to_reg, REG_MULTI_SZ, REG_DWORD, REG_SZ, REG_EXPAND_SZ]
    norm_num [henc]
    rw [← hms]
  · intro pre v post hv hbv
    have h := encodeElems_bad pre v post hv hbv
    simp only [py_to_reg, REG_MULTI_SZ, REG_DWORD, REG_SZ, REG_EXPAND_SZ]
    norm_num [h]

/-- C7 witness: the amended theorem applied at the string `u'A'`, the list
`[u'A']`, the byte-string list `['B']`, and the list `[0]` whose element is
an int — neither a unicode nor a byte string. -/
theorem c7_encode_witness :
    py_to_reg (PyVal.str [65]) REG_SZ = .ok [65, 0, 0]
    ∧ py_to_reg (PyVal.list [PyVal.str [65]]) REG_MULTI_SZ = .ok [65, 0, 0, 0]
    ∧ py_to_reg (PyVal.list [PyVal.bytes [66]]) REG_MULTI_SZ = .ok [66, 0, 0, 0]
    ∧ py_to_reg (PyVal.list [PyVal.int 0]) REG_MULTI_SZ = .error .valueError :=
  ⟨((c7_encode_amended.1 [65]).1).trans (by rfl),
   (c7_encode_amended.2.1 [65] []).trans (by rfl),
   (c7_encode_amended.2.2.2.1 [66]
      (by intro c hc; simp at hc; omega)).trans (by rfl),
   c7_encode_amended.2.2.2.2 [] (PyVal.int 0) []
     (by intro x h; cases h) (by intro b h; cases h)⟩

/-! ## Claim C9 (decode leniency) -/

/-- C9 counterexample: `[0xe9, 0x00, 0x00, 0x01]` is the UTF-16-LE encoding
of the two-unit string `u'\x00e9Ā'` with NO trailing terminator, yet
`reg_to_py` fails on it under both string types: the `UTF16LE_NULL`
heuristic matches the UNALIGNED `00 00` pair at byte offset 1 (its
lookbehind byte `0xe9` is outside `[\x01-\x7f]`), so the split produces the
odd-length prefix `[0xe9]`, whose UTF-16-LE decode raises — refuting
"decode succeeds (never fails) on a buffer that omits the trailing
double-zero terminator" and the "truncated at the first ALIGNED double-zero
boundary" reading. -/
theorem c9_decode_cex :
    reg_to_py [233, 0, 0, 1] 4 REG_SZ = .error .unicodeDecodeError
    ∧ reg_to_py [233, 0, 0, 1] 4 REG_MULTI_SZ = .error .unicodeDecodeError := by
  constructor <;> rfl

/-- C9 amended: the truncation point is the first `00 00` pair not preceded
by a byte in `[\x01-\x7f]` (a heuristic, not an alignment check), and decode
can fail when the prefix before that match has odd length (see the
counterexample).  For printable-ASCII content the heuristic does coincide
with the aligned boundary, and the claimed leniency holds: a string buffer
missing the trailing terminator, carrying one extra padding byte, or
carrying a full extra terminator decodes back to the original string, and a
string-list buffer of nonempty ASCII elements missing its trailing
terminator, carrying one extra padding byte, or carrying an extra trailing
terminator decodes back to the original list. -/
theorem c9_decode_amended :
    (∀ s, asciiStr s →
        reg_to_py (utf16le s) (2 * s.length) REG_SZ = .ok (PyVal.str s)
        ∧ reg_to_py (utf16le s ++ [0]) (2 * s.length + 1) REG_SZ = .ok (PyVal.str s)
        ∧ reg_to_py (utf16le s ++ [0, 0]) (2 * s.length + 2) REG_SZ
            = .ok (PyVal.str s))
    ∧ (∀ l : List (List Nat), (∀ s ∈ l, s ≠ [] ∧ asciiStr s) →
        reg_to_py (joinNull (l.map utf16le))
            (joinNull (l.map utf16le)).length REG_MULTI_SZ
          = .ok (PyVal.list (l.map PyVal.str))
        ∧ reg_to_py (joinNull (l.map utf16le) ++ [0, 0, 0])
            ((joinNull (l.map utf16le)).length + 3) REG_MULTI_SZ
          = .ok (PyVal.list (l.map PyVal.str))
        ∧ reg_to_py (joinNull (l.map utf16le) ++ [0, 0, 0, 0])
            ((joinNull (l.map utf16le)).length + 4) REG_MULTI_SZ
          = .ok (PyVal.list (l.map PyVal.str))) := by
  constructor
  · intro s hs
    have hla := asciiStr_lowAscii s hs
    have hsplit := splitNull_utf16le_single s hla
    have hdec := utf16leDec_utf16le s (fun c hc => (hla c hc).1)
    have hlen := utf16le_length s
    refine ⟨?_, ?_, ?_⟩
    · simp only [reg_to_py, REG_SZ, REG_DWORD, REG_EXPAND_SZ]
      norm_num
      rw [hlen, if_neg (lt_irrefl _), hsplit]
      simp [List.headI, hdec]
    · simp only [reg_to_py, REG_SZ, REG_DWORD, REG_EXPAND_SZ]
      norm_num
      have htake : List.take (2 * s.length) (utf16le s ++ [0]) = utf16le s := by
        rw [show 2 * s.length = (utf16le s).length from hlen.symm, List.take_left]
      rw [if_pos (by omega : (2 * s.length + 1) % 2 = 1)]
      rw [if_pos (by rw [hlen]; omega), htake, hsplit]
      simp [List.headI, hdec]
    · simp only [reg_to_py, REG_SZ, REG_DWORD, REG_EXPAND_SZ]
      norm_num
      have hw := splitNull_ascii_sep s hs [] []
      rw [hlen, if_neg (lt_irrefl _)]
      rw [show utf16le s ++ [0, 0] = utf16le s ++ 0 :: 0 :: [] from rfl, hw]
      simp [List.headI, hdec]
  · intro l hl
    have heven := joinNull_length_even l
    cases l with
    | nil =>
        refine ⟨rfl, rfl, rfl⟩
    | cons s l' =>
        have hnt := splitNull_joinNull_noTail s l' (fun t ht => (hl t ht).2)
        have hwk := splitNull_joinNull s l' (fun t ht => (hl t ht).2)
        have hdec0 := decodeSegs_parts (s :: l') [] (fun t ht =>
          ⟨(hl t ht).1, fun c hc => by have := (hl t ht).2 c hc; omega⟩) (Or.inl rfl)
        have hdec1 := decodeSegs_parts (s :: l') [[]] (fun t ht =>
          ⟨(hl t ht).1, fun c hc => by have := (hl t ht).2 c hc; omega⟩)
          (Or.inr ⟨[], rfl⟩)
        have hdec2 := decodeSegs_parts (s :: l') [[], []] (fun t ht =>
          ⟨(hl t ht).1, fun c hc => by have := (hl t ht).2 c hc; omega⟩)
          (Or.inr ⟨[[]], rfl⟩)
        have hwk0 := hwk []
        have hwk2 := hwk [0, 0]
        simp only [List.map_cons, List.cons_append, List.append_nil,
          show splitNull false [] ([] : List Nat) = [[]] from rfl,
          show splitNull false [] [0, 0] = [[], []] from rfl]
          at hnt hwk0 hwk2 hdec0 hdec1 hdec2 heven
        refine ⟨?_, ?_, ?_⟩
        · simp only [reg_to_py, REG_MULTI_SZ, REG_DWORD, REG_SZ, REG_EXPAND_SZ,
            List.map_cons]
          norm_num
          rw [if_neg (show ¬(joinNull (utf16le s :: List.map utf16le l')).length % 2
                = 1 by omega)]
          rw [if_neg (lt_irrefl _), hnt, hdec0]
          simp
        · simp only [reg_to_py, REG_MULTI_SZ, REG_DWORD, REG_SZ, REG_EXPAND_SZ,
            List.map_cons]
          norm_num
          have htake : List.take ((joinNull (utf16le s :: l'.map utf16le)).length + 2)
              (joinNull (utf16le s :: l'.map utf16le) ++ [0, 0, 0])
              = joinNull (utf16le s :: l'.map utf16le) ++ [0, 0] := by
            rw [show joinNull (utf16le s :: l'.map utf16le) ++ [0, 0, 0]
                  = (joinNull (utf16le s :: l'.map utf16le) ++ [0, 0]) ++ [0] by simp,
                show (joinNull (utf16le s :: l'.map utf16le)).length + 2
                  = (joinNull (utf16le s :: l'.map utf16le) ++ [0, 0]).length by simp]
            rw [List.take_left]
          rw [if_pos (show ((joinNull (utf16le s :: List.map utf16le l')).length + 3) % 2
                = 1 by omega)]
          rw [if_pos (show (joinNull (utf16le s :: List.map utf16le l')).length + 2
                < (joinNull (utf16le s :: List.map utf16le l')).length + 3 by omega)]
          rw [htake]
          rw [show joinNull (utf16le s :: List.map utf16le l') ++ [0, 0]
                = joinNull (utf16le s :: List.map utf16le l') ++ 0 :: 0 :: [] from rfl]
          rw [hwk0, hdec1]
          simp
        · simp only [reg_to_py, REG_MULTI_SZ, REG_DWORD, REG_SZ, REG_EXPAND_SZ,
            List.map_cons]
          norm_num
          rw [if_neg (show ¬((joinNull (utf16le s :: List.map utf16le l')).length + 4) % 2
                = 1 by omega)]
          rw [if_neg (lt_irrefl _)]
          rw [hwk2, hdec2]
          simp

/-- C9 witness: the amended leniency theorem applied at the ASCII string
`u'AB'` and the list `[u'A', u'B']`. -/
theorem c9_decode_witness :
    reg_to_py [65, 0, 66, 0] 4 REG_SZ = .ok (PyVal.str [65, 66])
    ∧ reg_to_py [65, 0, 0, 0, 66, 0, 0, 0, 0, 0] 10 REG_MULTI_SZ
        = .ok (PyVal.list [PyVal.str [65], PyVal.str [66]]) := by
  have ha : asciiStr [65, 66] := by intro c hc; simp at hc; omega
  have hb : ∀ s ∈ [[65], [66]], s ≠ [] ∧ asciiStr ([s.head!] : List Nat) ∨ True :=
    by simp
  constructor
  · have h := (c9_decode_amended.1 [65, 66] ha).1
    simpa [utf16le] using h
  · have h := (c9_decode_amended.2 [[65], [66]]
      (by
        intro t ht
        simp at ht
        rcases ht with h1 | h1 <;> subst h1 <;>
          exact ⟨by simp, by intro c hc; simp at hc; omega⟩)).2.2
    simpa [joinNull, utf16le] using h

/-! ## Path-splitting lemmas -/

theorem splitFirst_of_not_mem (l : PStr) (h : '\\' ∉ l) :
    splitFirst l = Option.none := by
  induction l with
  | nil => rfl
  | cons c rest ih =>
      have hc : ¬(c = '\\') := fun hx => h (by simp [hx])
      have hr : '\\' ∉ rest := fun hx => h (by simp [hx])
      simp [splitFirst, hc, ih hr]

theorem mem_of_splitFirst_some (l : PStr) (a b : PStr)
    (h : splitFirst l = Option.some (a, b)) : '\\' ∈ l := by
  by_contra hmem
  rw [splitFirst_of_not_mem l hmem] at h
  cases h

theorem not_mem_of_splitFirst_none (l : PStr) (h : splitFirst l = Option.none) :
    '\\' ∉ l := by
  induction l with
  | nil => simp
  | cons c rest ih =>
      by_cases hc : c = '\\'
      · subst hc
        simp [splitFirst] at h
      · simp only [splitFirst, if_neg hc] at h
        intro hmem
        rcases List.mem_cons.mp hmem with h1 | h1
        · exact hc h1.symm
        · cases hsf : splitFirst rest with
          | none => exact ih hsf h1
          | some ab =>
              obtain ⟨a, b⟩ := ab
              rw [hsf] at h
              simp at h

theorem splitFirst_append (a b : PStr) (ha : '\\' ∉ a) :
    splitFirst (a ++ '\\' :: b) = Option.some (a, b) := by
  induction a with
  | nil => simp [splitFirst]
  | cons c a' ih =>
      have hc : ¬(c = '\\') := fun hx => ha (by simp [hx])
      have ha' : '\\' ∉ a' := fun hx => ha (by simp [hx])
      simp [splitFirst, hc, ih ha']

theorem rsplitLast_of_not_mem (l : PStr) (h : '\\' ∉ l) :
    rsplitLast l = Option.none := by
  induction l with
  | nil => rfl
  | cons c rest ih =>
      have hc : ¬(c = '\\') := fun hx => h (by simp [hx])
      have hr : '\\' ∉ rest := fun hx => h (by simp [hx])
      simp [rsplitLast, ih hr, hc]

theorem rsplitLast_append (a b : PStr) (ha : '\\' ∉ a) (hb : '\\' ∉ b) :
    rsplitLast (a ++ '\\' :: b) = Option.some (a, b) := by
  induction a with
  | nil => simp [rsplitLast, rsplitLast_of_not_mem b hb]
  | cons c a' ih =>
      have ha' : '\\' ∉ a' := fun hx => ha (by simp [hx])
      simp [rsplitLast, ih ha']

theorem splitAll_of_not_mem (p : PStr) (h : '\\' ∉ p) : splitAll p = [p] := by
  induction p with
  | nil => rfl
  | cons c rest ih =>
      have hc : ¬(c = '\\') := fun hx => h (by simp [hx])
      have hr : '\\' ∉ rest := fun hx => h (by simp [hx])
      simp [splitAll, hc, ih hr]

theorem splitAll_append (p t : PStr) (h : '\\' ∉ p) :
    splitAll (p ++ '\\' :: t) = p :: splitAll t := by
  induction p with
  | nil => simp [splitAll]
  | cons c p' ih =>
      have hc : ¬(c = '\\') := fun hx => h (by simp [hx])
      have hp' : '\\' ∉ p' := fun hx => h (by simp [hx])
      rw [List.cons_append, splitAll, if_neg hc, ih hp']

theorem splitAll_joinBS (p : PStr) (parts : List PStr)
    (h : ∀ q ∈ p :: parts, '\\' ∉ q) :
    splitAll (joinBS (p :: parts)) = p :: parts := by
  induction parts generalizing p with
  | nil => exact splitAll_of_not_mem p (h p (by simp))
  | cons q parts' ih =>
      rw [show joinBS (p :: q :: parts') = p ++ '\\' :: joinBS (q :: parts') from rfl,
          splitAll_append p _ (h p (by simp)),
          ih q (fun u hu => h u (by simp at hu ⊢; tauto))]

theorem joinBS_ne_nil (s : PStr) (r : List PStr) (h : s ≠ []) :
    joinBS (s :: r) ≠ [] := by
  cases r with
  | nil => simpa [joinBS] using h
  | cons t r' => simp [joinBS]

/-! ## Claim C8 (path resolution failure condition) -/

/-- C8 counterexample: the claim's "if and only if" requires
`resolve("BADROOT\\")` — whose portion after the first separator is empty —
to fail with `MalformedPath` (a `ValueError`).  In the source, the
`getattr(winreg, root)` lookup runs BEFORE the emptiness check, so the call
fails with `AttributeError` (`UnknownRoot`) instead. -/
theorem c8_parse_path_cex :
    parse_path ("BADROOT\\".toList) = .error .attrErr
    ∧ (Except.error PyErr.attrErr : Except PyErr (Nat × PStr)) ≠ .error .valueErr := by
  constructor
  · rfl
  · intro h
    simp at h

/-- C8 amended: `parse_path` fails with `ValueError` (MalformedPath) iff the
text contains no separator, OR the portion after the first separator is
empty AND the (uppercased, alias-expanded) root token is a known root — an
unknown root token fails earlier with `AttributeError` (UnknownRoot), even
when the portion after the separator is empty.  The claim's concrete
examples hold: `"HKLM\\A\\B"` parses to the local-machine root with relative
path `"A\\B"`, and `"HKCU\\"` and `"BADROOT"` fail with `ValueError`;
`"BADROOT\\"` and `"XYZ\\A"` fail with `AttributeError` instead of the
claimed behavior. -/
theorem c8_parse_path_amended :
    (∀ l : PStr, parse_path l = .error .valueErr ↔
      ('\\' ∉ l ∨ ∃ a, splitFirst l = Option.some (a, [])
        ∧ (winregAttr (expand_short_root (upperStr a))).isSome = true))
    ∧ parse_path ("HKLM\\A\\B".toList) = .ok (HKEY_LOCAL_MACHINE, "A\\B".toList)
    ∧ parse_path ("HKCU\\".toList) = .error .valueErr
    ∧ parse_path ("BADROOT".toList) = .error .valueErr
    ∧ parse_path ("XYZ\\A".toList) = .error .attrErr := by
  refine ⟨?_, by rfl, by rfl, by rfl, by rfl⟩
  intro l
  unfold parse_path
  cases hsf : splitFirst l with
  | none =>
      constructor
      · intro _
        exact Or.inl (not_mem_of_splitFirst_none l hsf)
      · intro _
        rfl
  | some ab =>
      obtain ⟨a, b⟩ := ab
      have hmem : '\\' ∈ l := mem_of_splitFirst_some l a b hsf
      cases hattr : winregAttr (expand_short_root (upperStr a)) with
      | none =>
          simp only [hattr]
          constructor
          · intro h
            cases h
          · intro h
            rcases h with h | ⟨a', h1, h2⟩
            · exact absurd hmem h
            · cases h1
              rw [hattr] at h2
              cases h2
      | some r =>
          simp only [hattr]
          by_cases hb : b = []
          · subst hb
            simp only [if_pos rfl]
            constructor
            · intro _
              exact Or.inr ⟨a, rfl, by rw [hattr]; rfl⟩
            · intro _
              rfl
          · rw [if_neg hb]
            constructor
            · intro h
              cases h
            · intro h
              rcases h with h | ⟨a', h1, _⟩
              · exact absurd hmem h
              · cases h1
                exact absurd rfl hb

/-! ## Claim C2 (connection-cache invariant) -/

/-- C2 code bug: the source compares `root != self._root` in `_get_handler`
but NEVER assigns `self._root`, so the comparison is always against `None`
and every call reconnects.  Failing input: two consecutive `read_key` calls
for `HKEY_LOCAL_MACHINE\A` on a fresh client.  After the first call the
cache holds a connection bound to the requested root (`client = some
HKEY_LOCAL_MACHINE` while `_root` is still `None`), yet the second call —
same root — issues a second `connect` instead of reusing it, contradicting
"a new connect call is issued only when no connection is cached or the
requested root differs from the cached connection's root" and "two
consecutive operations addressing the same root perform exactly one
connect". -/
theorem c2_connection_cache_bug :
    (read_key (initState Option.none [(HKEY_LOCAL_MACHINE, "A".toList)] [])
        ("HKEY_LOCAL_MACHINE\\A".toList) false).2.1.client
      = Option.some HKEY_LOCAL_MACHINE
    ∧ (read_key (initState Option.none [(HKEY_LOCAL_MACHINE, "A".toList)] [])
        ("HKEY_LOCAL_MACHINE\\A".toList) false).2.1.rootAttr = Option.none
    ∧ connectCount (read_key (initState Option.none
        [(HKEY_LOCAL_MACHINE, "A".toList)] [])
        ("HKEY_LOCAL_MACHINE\\A".toList) false).2.2 = 1
    ∧ connectCount (read_key (read_key (initState Option.none
        [(HKEY_LOCAL_MACHINE, "A".toList)] [])
        ("HKEY_LOCAL_MACHINE\\A".toList) false).2.1
        ("HKEY_LOCAL_MACHINE\\A".toList) false).2.2 = 1 := by
  refine ⟨rfl, rfl, rfl, rfl⟩

/-! ## Claim C5 (deleteKeyTree post-order) -/

/-- C5 code bug: `delete_key_tree` reads `keys_num` once and then calls
`EnumKey(handle, key_i)` for `key_i = 0 .. keys_num-1` WHILE deleting the
enumerated children, so the indices shift under it.  On the claim's own
example — `R\A` with children `R\A\X` (leaf) and `R\A\Y\Z` (leaf `Z` under
`Y`) — the run deletes `X`, then `EnumKey(handle, 1)` is out of range (only
`Y` remains, at index 0) and raises `OSError`: `Z`, `Y` and `A` are never
deleted, so the claimed delete sequence (`Z` before `Y`, both `X` and `Y`
before `A`) never happens.  The trace below shows the only successful
delete call is `X`'s, the operation fails with the enumeration `OSError`,
and `A`, `A\Y`, `A\Y\Z` all survive in the store. -/
theorem c5_delete_key_tree_postorder_bug :
    (delete_key_tree 6 (initState Option.none
        [(HKEY_LOCAL_MACHINE, "A".toList), (HKEY_LOCAL_MACHINE, "A\\X".toList),
         (HKEY_LOCAL_MACHINE, "A\\Y".toList), (HKEY_LOCAL_MACHINE, "A\\Y\\Z".toList)] [])
        ("HKEY_LOCAL_MACHINE\\A".toList) false).1 = .error .osErr
    ∧ deletesOf (delete_key_tree 6 (initState Option.none
        [(HKEY_LOCAL_MACHINE, "A".toList), (HKEY_LOCAL_MACHINE, "A\\X".toList),
         (HKEY_LOCAL_MACHINE, "A\\Y".toList), (HKEY_LOCAL_MACHINE, "A\\Y\\Z".toList)] [])
        ("HKEY_LOCAL_MACHINE\\A".toList) false).2.2
      = [Event.deleteK HKEY_LOCAL_MACHINE ("A".toList) ("X".toList) true]
    ∧ (HKEY_LOCAL_MACHINE, "A\\Y\\Z".toList) ∈ (delete_key_tree 6 (initState Option.none
        [(HKEY_LOCAL_MACHINE, "A".toList), (HKEY_LOCAL_MACHINE, "A\\X".toList),
         (HKEY_LOCAL_MACHINE, "A\\Y".toList), (HKEY_LOCAL_MACHINE, "A\\Y\\Z".toList)] [])
        ("HKEY_LOCAL_MACHINE\\A".toList) false).2.1.reg
    ∧ (HKEY_LOCAL_MACHINE, "A\\Y".toList) ∈ (delete_key_tree 6 (initState Option.none
        [(HKEY_LOCAL_MACHINE, "A".toList), (HKEY_LOCAL_MACHINE, "A\\X".toList),
         (HKEY_LOCAL_MACHINE, "A\\Y".toList), (HKEY_LOCAL_MACHINE, "A\\Y\\Z".toList)] [])
        ("HKEY_LOCAL_MACHINE\\A".toList) false).2.1.reg
    ∧ (HKEY_LOCAL_MACHINE, "A".toList) ∈ (delete_key_tree 6 (initState Option.none
        [(HKEY_LOCAL_MACHINE, "A".toList), (HKEY_LOCAL_MACHINE, "A\\X".toList),
         (HKEY_LOCAL_MACHINE, "A\\Y".toList), (HKEY_LOCAL_MACHINE, "A\\Y\\Z".toList)] [])
        ("HKEY_LOCAL_MACHINE\\A".toList) false).2.1.reg := by
  refine ⟨rfl, rfl, by decide, by decide, by decide⟩

/-! ## Claim C10 (deleteKey on a root-child path) -/

theorem getHandler_parse_err (st : WRState) (key : PStr) (access : Nat)
    (wow : Bool) (e : PyErr) (hp : parse_path key = .error e) :
    getHandler st key access wow = (.error e, st, []) := by
  unfold getHandler
  rw [hp]

/-- C10 counterexample: the claim asserts that `deleteKeyTree` on a
root-child path "deletes all descendant subtrees but then fails at its
final step".  With two children (`A\X`, `A\Y`, both leaves, under the
root-child `A`) the run instead aborts DURING enumeration with the
index-shift `OSError` of `EnumKey` — before deleting subtree `A\Y` and
before ever reaching the final `delete_key` step (which would have raised
`ValueError`). -/
theorem c10_delete_key_tree_cex :
    (delete_key_tree 4 (initState Option.none
        [(HKEY_LOCAL_MACHINE, "A".toList), (HKEY_LOCAL_MACHINE, "A\\X".toList),
         (HKEY_LOCAL_MACHINE, "A\\Y".toList)] [])
        ("HKEY_LOCAL_MACHINE\\A".toList) false).1 = .error .osErr
    ∧ (HKEY_LOCAL_MACHINE, "A\\Y".toList) ∈ (delete_key_tree 4 (initState Option.none
        [(HKEY_LOCAL_MACHINE, "A".toList), (HKEY_LOCAL_MACHINE, "A\\X".toList),
         (HKEY_LOCAL_MACHINE, "A\\Y".toList)] [])
        ("HKEY_LOCAL_MACHINE\\A".toList) false).2.1.reg
    ∧ (Except.error PyErr.osErr : Except PyErr Unit) ≠ .error .valueErr := by
  refine ⟨rfl, by decide, by simp⟩

/-- C10 amended: `delete_key` on a path of exactly one root token and one
segment ALWAYS fails with `ValueError` (MalformedPath), with no OS call and
no state change, because `rsplit` yields the bare root token as the parent
and `parse_path` rejects it for lacking a separator — this holds for every
store state, so the key is never removed even when it exists.
`delete_key_tree` on such a path never removes the top key either, but the
claimed "deletes all descendant subtrees, then fails at its final step"
behavior only materializes when every node has at most one child (e.g. the
chain `A` with single leaf child `A\X` below: `X` is deleted, the read
handle is closed, and the final `delete_key` fails with `ValueError`
leaving `A` in the store); with two or more children it aborts during
enumeration instead (see the counterexample). -/
theorem c10_delete_key_amended :
    (∀ (st : WRState) (root leaf : PStr) (wow : Bool), '\\' ∉ root → '\\' ∉ leaf →
        delete_key st (root ++ '\\' :: leaf) wow = (.error .valueErr, st, []))
    ∧ (delete_key_tree 4 (initState Option.none
        [(HKEY_LOCAL_MACHINE, "A".toList), (HKEY_LOCAL_MACHINE, "A\\X".toList)] [])
        ("HKEY_LOCAL_MACHINE\\A".toList) false).1 = .error .valueErr
    ∧ deletesOf (delete_key_tree 4 (initState Option.none
        [(HKEY_LOCAL_MACHINE, "A".toList), (HKEY_LOCAL_MACHINE, "A\\X".toList)] [])
        ("HKEY_LOCAL_MACHINE\\A".toList) false).2.2
      = [Event.deleteK HKEY_LOCAL_MACHINE ("A".toList) ("X".toList) true]
    ∧ (delete_key_tree 4 (initState Option.none
        [(HKEY_LOCAL_MACHINE, "A".toList), (HKEY_LOCAL_MACHINE, "A\\X".toList)] [])
        ("HKEY_LOCAL_MACHINE\\A".toList) false).2.1.reg
      = [(HKEY_LOCAL_MACHINE, "A".toList)] := by
  refine ⟨?_, rfl, rfl, rfl⟩
  intro st root leaf wow hroot hleaf
  have hg : getHandler st root KEY_WRITE wow = (.error .valueErr, st, []) :=
    getHandler_parse_err st root KEY_WRITE wow .valueErr (by
      unfold parse_path
      rw [splitFirst_of_not_mem root hroot])
  unfold delete_key
  rw [rsplitLast_append root leaf hroot hleaf]
  simp only [hg]

/-- C10 witness: the general `delete_key` clause of the amended theorem
applied at the root-child path `HKEY_LOCAL_MACHINE\A` over a store in which
that key EXISTS: the call still fails with `ValueError` and removes
nothing. -/
theorem c10_delete_key_witness :
    delete_key (initState Option.none [(HKEY_LOCAL_MACHINE, "A".toList)] [])
        ("HKEY_LOCAL_MACHINE\\A".toList) false
      = (.error .valueErr,
         initState Option.none [(HKEY_LOCAL_MACHINE, "A".toList)] [], []) := by
  have h := c10_delete_key_amended.1
    (initState Option.none [(HKEY_LOCAL_MACHINE, "A".toList)] [])
    ("HKEY_LOCAL_MACHINE".toList) ("A".toList) false (by decide) (by decide)
  exact h

/-! ## Claim C6 (handle hygiene) -/

theorem closeCount_getHandler (st : WRState) (key : PStr) (access : Nat)
    (wow : Bool) : closeCount (getHandler st key access wow).2.2 = 0 := by
  unfold getHandler openAfter
  cases parse_path key with
  | error e => simp [closeCount]
  | ok rp =>
      obtain ⟨root, path⟩ := rp
      cases st.client with
      | none =>
          by_cases h : (root, path) ∈ st.reg <;> simp [h, closeCount]
      | some c =>
          by_cases hr : Option.some root ≠ st.rootAttr
          · by_cases h : (root, path) ∈ st.reg <;> simp [hr, h, closeCount]
          · by_cases h : (c, path) ∈ st.reg <;> simp [hr, h, closeCount]

theorem closeCount_enumKeysLoop (reg : List (Nat × PStr)) (h : Nat × PStr) :
    ∀ r i, closeCount (enumKeysLoop reg h i r).2 = 0 := by
  intro r
  induction r with
  | zero => intro i; simp [enumKeysLoop, closeCount]
  | succ r ih =>
      intro i
      unfold enumKeysLoop
      cases (childNames reg h.1 h.2).get? i with
      | none => simp [closeCount]
      | some c =>
          have hr := ih (i + 1)
          cases he : enumKeysLoop reg h (i + 1) r with
          | mk res tr =>
              rw [he] at hr
              cases res <;> simpa [closeCount] using hr

theorem closeCount_enumValsLoop (st : WRState) (h : Nat × PStr) (keyName : PStr) :
    ∀ r i, closeCount (enumValsLoop st h keyName i r).2 = 0 := by
  intro r
  induction r with
  | zero => intro i; simp [enumValsLoop, closeCount]
  | succ r ih =>
      intro i
      unfold enumValsLoop
      cases (valsFor st.vals h.1 h.2).get? i with
      | none => simp [closeCount]
      | some c =>
          have hr := ih (i + 1)
          cases he : enumValsLoop st h keyName (i + 1) r with
          | mk res tr =>
              rw [he] at hr
              cases res <;> simpa [closeCount] using hr

theorem closeCount_append_zero (t1 t2 : Trace) (h1 : closeCount t1 = 0)
    (h2 : closeCount t2 = 0) : closeCount (t1 ++ t2) = 0 := by
  unfold closeCount at *
  rw [List.countP_append, h1, h2]

theorem closeCount_read_key (st : WRState) (name : PStr) (wow : Bool) :
    closeCount (read_key st name wow).2.2 = 0 := by
  cases hg : getHandler st name KEY_READ wow with
  | mk res rest =>
  obtain ⟨st', tr⟩ := rest
  have h0 : closeCount tr = 0 := by
    have h := closeCount_getHandler st name KEY_READ wow
    rw [hg] at h
    exact h
  cases res with
  | error e =>
      unfold read_key
      simp only [hg]
      exact h0
  | ok h =>
      cases h2 : enumKeysLoop st'.reg h 0 ((childNames st'.reg h.1 h.2).length) with
      | mk r2 tr2 =>
      have hc2 : closeCount tr2 = 0 := by
        have hh := closeCount_enumKeysLoop st'.reg h
          ((childNames st'.reg h.1 h.2).length) 0
        rw [h2] at hh
        exact hh
      have h1 : closeCount (tr ++ [Event.queryK h.1 h.2]) = 0 :=
        closeCount_append_zero _ _ h0 rfl
      cases r2 with
      | error e =>
          unfold read_key
          simp only [hg, h2]
          exact closeCount_append_zero _ _ h1 hc2
      | ok keys =>
          cases h3 : enumValsLoop st' h name 0 ((valsFor st'.vals h.1 h.2).length) with
          | mk r3 tr3 =>
          have hc3 : closeCount tr3 = 0 := by
            have hh := closeCount_enumValsLoop st' h name
              ((valsFor st'.vals h.1 h.2).length) 0
            rw [h3] at hh
            exact hh
          cases r3 with
          | error e =>
              unfold read_key
              simp only [hg, h2, h3]
              exact closeCount_append_zero _ _ (closeCount_append_zero _ _ h1 hc2) hc3
          | ok entries =>
              unfold read_key
              simp only [hg, h2, h3]
              exact closeCount_append_zero _ _ (closeCount_append_zero _ _ h1 hc2) hc3

theorem closeCount_read_entry (st : WRState) (key name : PStr) (wow : Bool) :
    closeCount (read_entry st key name wow).2.2 = 0 := by
  cases hg : getHandler st key KEY_READ wow with
  | mk res rest =>
  obtain ⟨st', tr⟩ := rest
  have h0 : closeCount tr = 0 := by
    have h := closeCount_getHandler st key KEY_READ wow
    rw [hg] at h
    exact h
  cases res with
  | error e =>
      unfold read_entry
      simp only [hg]
      exact h0
  | ok h =>
      unfold read_entry
      simp only [hg]
      cases (valsFor st'.vals h.1 h.2).find? (fun v => v.name == name) <;>
        exact closeCount_append_zero _ _ h0 rfl

theorem closeCount_write_entry (st : WRState) (key name : PStr) (data vtype : Nat)
    (wow : Bool) : closeCount (write_entry st key name data vtype wow).2.2 = 0 := by
  cases hg : getHandler st key KEY_SET_VALUE wow with
  | mk res rest =>
  obtain ⟨st', tr⟩ := rest
  have h0 : closeCount tr = 0 := by
    have h := closeCount_getHandler st key KEY_SET_VALUE wow
    rw [hg] at h
    exact h
  cases res with
  | error e =>
      unfold write_entry
      simp only [hg]
      exact h0
  | ok h =>
      unfold write_entry
      simp only [hg]
      exact closeCount_append_zero _ _ h0 rfl

theorem closeCount_delete_entry (st : WRState) (key name : PStr) (wow : Bool) :
    closeCount (delete_entry st key name wow).2.2 = 0 := by
  cases hg : getHandler st key KEY_SET_VALUE wow with
  | mk res rest =>
  obtain ⟨st', tr⟩ := rest
  have h0 : closeCount tr = 0 := by
    have h := closeCount_getHandler st key KEY_SET_VALUE wow
    rw [hg] at h
    exact h
  cases res with
  | error e =>
      unfold delete_entry
      simp only [hg]
      exact h0
  | ok h =>
      unfold delete_entry
      simp only [hg]
      by_cases hv : (valsFor st'.vals h.1 h.2).any (fun v => v.name == name) <;>
        simp only [hv, if_pos, if_neg, Bool.false_eq_true, reduceIte] <;>
        exact closeCount_append_zero _ _ h0 rfl

theorem closeCount_delete_key (st : WRState) (name : PStr) (wow : Bool) :
    closeCount (delete_key st name wow).2.2 = 0 := by
  cases hrs : rsplitLast name with
  | none =>
      unfold delete_key
      simp only [hrs]
      rfl
  | some pk =>
      obtain ⟨parental, key_name⟩ := pk
      cases hg : getHandler st parental KEY_WRITE wow with
      | mk res rest =>
      obtain ⟨st', tr⟩ := rest
      have h0 : closeCount tr = 0 := by
        have h := closeCount_getHandler st parental KEY_WRITE wow
        rw [hg] at h
        exact h
      cases res with
      | error e =>
          unfold delete_key
          simp only [hrs, hg]
          exact h0
      | ok h =>
          unfold delete_key deleteKeyOS
          simp only [hrs, hg]
          by_cases hm : (h.1, h.2 ++ '\\' :: key_name) ∈ st'.reg
          · simp only [hm, reduceIte]
            by_cases hc : childNames st'.reg h.1 (h.2 ++ '\\' :: key_name) = [] <;>
              simp only [hc, reduceIte] <;>
              exact closeCount_append_zero _ _ h0 rfl
          · simp only [hm, reduceIte]
            exact closeCount_append_zero _ _ h0 rfl

theorem closeCount_createSearch (subKeys : List PStr) (wow : Bool) :
    ∀ r st, closeCount (createSearch subKeys wow r st).2.2 = 0 := by
  intro r
  induction r with
  | zero => intro st; rfl
  | succ r ih =>
      intro st
      cases hg : getHandler st (joinBS (subKeys.take (r + 1))) KEY_WRITE wow with
      | mk res rest =>
      obtain ⟨st', tr⟩ := rest
      have h0 : closeCount tr = 0 := by
        have h := closeCount_getHandler st (joinBS (subKeys.take (r + 1)))
          KEY_WRITE wow
        rw [hg] at h
        exact h
      cases res with
      | ok hd =>
          unfold createSearch
          simp only [hg]
          exact h0
      | error e =>
          cases e <;> first
          | · unfold createSearch
              simp only [hg]
              exact h0
          | · cases hr : createSearch subKeys wow r st' with
              | mk res2 rest2 =>
              obtain ⟨st'', tr'⟩ := rest2
              have h1 : closeCount tr' = 0 := by
                have h := ih st'
                rw [hr] at h
                exact h
              unfold createSearch
              simp only [hg, hr]
              exact closeCount_append_zero _ _ h0 h1

theorem closeCount_create_key (st : WRState) (name : PStr) (wow : Bool) :
    closeCount (create_key st name wow).2.2 = 0 := by
  cases hs : createSearch (splitAll name) wow (splitAll name).length st with
  | mk res rest =>
  obtain ⟨st', tr⟩ := rest
  have h0 : closeCount tr = 0 := by
    have h := closeCount_createSearch (splitAll name) wow (splitAll name).length st
    rw [hs] at h
    exact h
  cases res with
  | error e =>
      unfold create_key
      simp only [hs]
      exact h0
  | ok opt =>
      cases opt with
      | none =>
          unfold create_key
          simp only [hs]
          exact h0
      | some hd =>
          unfold create_key
          simp only [hs]
          exact closeCount_append_zero _ _ h0 rfl

/-- C6 counterexample: `read_key` of an existing key issues one successful
`connect` and one successful `open` but ZERO `close` calls (the handle
object is left to garbage collection), refuting "the number of close calls
issued by the operation equals the number of open and connect calls that
succeeded during it" already on the success path of a read. -/
theorem c6_handle_hygiene_cex :
    connectCount (read_key (initState Option.none
        [(HKEY_LOCAL_MACHINE, "A".toList)] [])
        ("HKEY_LOCAL_MACHINE\\A".toList) false).2.2
      + openOkCount (read_key (initState Option.none
        [(HKEY_LOCAL_MACHINE, "A".toList)] [])
        ("HKEY_LOCAL_MACHINE\\A".toList) false).2.2 = 2
    ∧ closeCount (read_key (initState Option.none
        [(HKEY_LOCAL_MACHINE, "A".toList)] [])
        ("HKEY_LOCAL_MACHINE\\A".toList) false).2.2 = 0
    ∧ (0 : Nat) ≠ 2 := by
  refine ⟨rfl, rfl, by simp⟩

/-- C6 amended: no public operation except `delete_key_tree` EVER issues a
close call — on any state, path and arguments, `read_key`, `read_entry`,
`write_entry`, `delete_entry`, `delete_key` and `create_key` issue exactly
zero closes while still connecting and opening (handle release is left to
Python's finalizers; reconnecting also drops the previous connection without
closing it).  `delete_key_tree` closes exactly its own enumeration handle
per fully-processed level: on the chain `A\B` below, a successful run
issues 2 connects and 2 successful opens but exactly 1 close. -/
theorem c6_handle_hygiene_amended :
    (∀ (st : WRState) (name : PStr) (wow : Bool),
        closeCount (read_key st name wow).2.2 = 0)
    ∧ (∀ (st : WRState) (key name : PStr) (wow : Bool),
        closeCount (read_entry st key name wow).2.2 = 0)
    ∧ (∀ (st : WRState) (key name : PStr) (data vtype : Nat) (wow : Bool),
        closeCount (write_entry st key name data vtype wow).2.2 = 0)
    ∧ (∀ (st : WRState) (key name : PStr) (wow : Bool),
        closeCount (delete_entry st key name wow).2.2 = 0)
    ∧ (∀ (st : WRState) (name : PStr) (wow : Bool),
        closeCount (delete_key st name wow).2.2 = 0)
    ∧ (∀ (st : WRState) (name : PStr) (wow : Bool),
        closeCount (create_key st name wow).2.2 = 0)
    ∧ ((delete_key_tree 4 (initState Option.none
          [(HKEY_LOCAL_MACHINE, "A".toList), (HKEY_LOCAL_MACHINE, "A\\B".toList)] [])
          ("HKEY_LOCAL_MACHINE\\A\\B".toList) false).1 = .ok ()
        ∧ connectCount (delete_key_tree 4 (initState Option.none
          [(HKEY_LOCAL_MACHINE, "A".toList), (HKEY_LOCAL_MACHINE, "A\\B".toList)] [])
          ("HKEY_LOCAL_MACHINE\\A\\B".toList) false).2.2 = 2
        ∧ openOkCount (delete_key_tree 4 (initState Option.none
          [(HKEY_LOCAL_MACHINE, "A".toList), (HKEY_LOCAL_MACHINE, "A\\B".toList)] [])
          ("HKEY_LOCAL_MACHINE\\A\\B".toList) false).2.2 = 2
        ∧ closeCount (delete_key_tree 4 (initState Option.none
          [(HKEY_LOCAL_MACHINE, "A".toList), (HKEY_LOCAL_MACHINE, "A\\B".toList)] [])
          ("HKEY_LOCAL_MACHINE\\A\\B".toList) false).2.2 = 1) :=
  ⟨closeCount_read_key, closeCount_read_entry, closeCount_write_entry,
   closeCount_delete_entry, closeCount_delete_key, closeCount_create_key,
   rfl, rfl, rfl, rfl⟩

/-! ## Claims C3 and C4 (createKey ancestor search) -/

theorem joinBS_take_shape (tailSegs : List PStr)
    (hsegs : ∀ s ∈ tailSegs, s ≠ [] ∧ '\\' ∉ s) (m : Nat) (h1 : 1 ≤ m)
    (h2 : m ≤ tailSegs.length) :
    tailSegs.take m ≠ [] ∧ joinBS (tailSegs.take m) ≠ [] := by
  cases tailSegs with
  | nil => simp at h2; omega
  | cons t ts =>
      obtain ⟨m', rfl⟩ : ∃ m', m = m' + 1 := ⟨m - 1, by omega⟩
      rw [List.take_succ_cons]
      exact ⟨by simp, joinBS_ne_nil t _ (hsegs t (by simp)).1⟩

theorem parse_path_take (rootTok : PStr) (tailSegs : List PStr) (rootVal : Nat)
    (hroot : winregAttr (expand_short_root (upperStr rootTok)) = Option.some rootVal)
    (hbs : '\\' ∉ rootTok)
    (hsegs : ∀ s ∈ tailSegs, s ≠ [] ∧ '\\' ∉ s)
    (m : Nat) (h1 : 1 ≤ m) (h2 : m ≤ tailSegs.length) :
    parse_path (joinBS ((rootTok :: tailSegs).take (m + 1)))
      = .ok (rootVal, joinBS (tailSegs.take m)) := by
  have ⟨hne, hjne⟩ := joinBS_take_shape tailSegs hsegs m h1 h2
  rw [List.take_succ_cons]
  cases hx : tailSegs.take m with
  | nil => exact absurd hx hne
  | cons x xs =>
      rw [hx] at hjne
      rw [show joinBS (rootTok :: x :: xs) = rootTok ++ '\\' :: joinBS (x :: xs)
            from rfl]
      unfold parse_path
      rw [splitFirst_append rootTok _ hbs]
      simp only [hroot, if_neg hjne]

/-- One failing probe of the ancestor-search loop: the prefix of `m + 1`
tokens parses but is absent, so the attempt reconnects, fails the open with
`FileNotFoundError`, and the loop continues with one fewer segment. -/
theorem createSearch_step_fail (rootTok : PStr) (tailSegs : List PStr)
    (rootVal : Nat) (wow : Bool) (st : WRState) (m : Nat)
    (hroot : winregAttr (expand_short_root (upperStr rootTok)) = Option.some rootVal)
    (hbs : '\\' ∉ rootTok)
    (hsegs : ∀ s ∈ tailSegs, s ≠ [] ∧ '\\' ∉ s)
    (h1 : 1 ≤ m) (h2 : m ≤ tailSegs.length)
    (hra : st.rootAttr = Option.none)
    (habs : (rootVal, joinBS (tailSegs.take m)) ∉ st.reg) :
    createSearch (rootTok :: tailSegs) wow (m + 1) st =
      ((createSearch (rootTok :: tailSegs) wow m
          { st with client := Option.some rootVal }).1,
       (createSearch (rootTok :: tailSegs) wow m
          { st with client := Option.some rootVal }).2.1,
       Event.connect st.host rootVal
         :: Event.openK rootVal (joinBS (tailSegs.take m))
              (get_access_key KEY_WRITE wow) false
         :: (createSearch (rootTok :: tailSegs) wow m
              { st with client := Option.some rootVal }).2.2) := by
  have hp := parse_path_take rootTok tailSegs rootVal hroot hbs hsegs m h1 h2
  have hgh : getHandler st (joinBS ((rootTok :: tailSegs).take (m + 1))) KEY_WRITE wow
      = (.error .fileNotFound, { st with client := Option.some rootVal },
         [Event.connect st.host rootVal,
          Event.openK rootVal (joinBS (tailSegs.take m))
            (get_access_key KEY_WRITE wow) false]) := by
    unfold getHandler
    rw [hp]
    cases hcl : st.client with
    | none => simp [openAfter, habs]
    | some c =>
        rw [hra]
        simp [openAfter, habs]
  conv_lhs => rw [createSearch]
  rw [hgh]
  cases hr : createSearch (rootTok :: tailSegs) wow m
      { st with client := Option.some rootVal } with
  | mk res rest =>
      obtain ⟨st2, tr2⟩ := rest
      simp only [hr]
      rfl

/-- The successful probe of the ancestor-search loop at the prefix of
`k` relative segments (`k + 1` tokens): the attempt reconnects and the open
succeeds, ending the loop with `before_index = k + 1`. -/
theorem createSearch_step_ok (rootTok : PStr) (tailSegs : List PStr)
    (rootVal : Nat) (wow : Bool) (st : WRState) (m : Nat)
    (hroot : winregAttr (expand_short_root (upperStr rootTok)) = Option.some rootVal)
    (hbs : '\\' ∉ rootTok)
    (hsegs : ∀ s ∈ tailSegs, s ≠ [] ∧ '\\' ∉ s)
    (h1 : 1 ≤ m) (h2 : m ≤ tailSegs.length)
    (hra : st.rootAttr = Option.none)
    (hmem : (rootVal, joinBS (tailSegs.take m)) ∈ st.reg) :
    createSearch (rootTok :: tailSegs) wow (m + 1) st =
      (.ok (Option.some ((rootVal, joinBS (tailSegs.take m)), m + 1)),
       { st with client := Option.some rootVal },
       [Event.connect st.host rootVal,
        Event.openK rootVal (joinBS (tailSegs.take m))
          (get_access_key KEY_WRITE wow) true]) := by
  have hp := parse_path_take rootTok tailSegs rootVal hroot hbs hsegs m h1 h2
  have hgh : getHandler st (joinBS ((rootTok :: tailSegs).take (m + 1))) KEY_WRITE wow
      = (.ok (rootVal, joinBS (tailSegs.take m)),
         { st with client := Option.some rootVal },
         [Event.connect st.host rootVal,
          Event.openK rootVal (joinBS (tailSegs.take m))
            (get_access_key KEY_WRITE wow) true]) := by
    unfold getHandler
    rw [hp]
    cases hcl : st.client with
    | none => simp [openAfter, hmem]
    | some c =>
        rw [hra]
        simp [openAfter, hmem]
  conv_lhs => rw [createSearch]
  rw [hgh]

theorem createSearch_success (rootTok : PStr) (tailSegs : List PStr)
    (rootVal : Nat) (wow : Bool) (k : Nat)
    (hroot : winregAttr (expand_short_root (upperStr rootTok)) = Option.some rootVal)
    (hbs : '\\' ∉ rootTok)
    (hsegs : ∀ s ∈ tailSegs, s ≠ [] ∧ '\\' ∉ s)
    (hk1 : 1 ≤ k) :
    ∀ d st, k + d ≤ tailSegs.length → st.rootAttr = Option.none →
      (rootVal, joinBS (tailSegs.take k)) ∈ st.reg →
      (∀ j, k < j → j ≤ k + d → (rootVal, joinBS (tailSegs.take j)) ∉ st.reg) →
      createSearch (rootTok :: tailSegs) wow (k + d + 1) st =
        (.ok (Option.some ((rootVal, joinBS (tailSegs.take k)), k + 1)),
         { st with client := Option.some rootVal },
         probeTrace st.host rootVal (get_access_key KEY_WRITE wow) tailSegs (k + 1) d) := by
  intro d
  induction d with
  | zero =>
      intro st hlen hra hmem _
      have h := createSearch_step_ok rootTok tailSegs rootVal wow st k hroot hbs hsegs
        hk1 (by omega) hra hmem
      rw [h]
      simp [probeTrace]
  | succ d ih =>
      intro st hlen hra hmem habs
      have hstep := createSearch_step_fail rootTok tailSegs rootVal wow st (k + d + 1)
        hroot hbs hsegs (by omega) (by omega) hra
        (habs (k + d + 1) (by omega) (by omega))
      have hrec := ih { st with client := Option.some rootVal } (by omega) hra hmem
        (fun j hj1 hj2 => habs j hj1 (by omega))
      have harith : k + (d + 1) + 1 = (k + d + 1) + 1 := by omega
      rw [harith, hstep, hrec]
      simp only [probeTrace]
      rw [show k + 1 + d = k + d + 1 from by omega]

theorem createSearch_allAbsent (rootTok : PStr) (tailSegs : List PStr)
    (rootVal : Nat) (wow : Bool)
    (hroot : winregAttr (expand_short_root (upperStr rootTok)) = Option.some rootVal)
    (hbs : '\\' ∉ rootTok)
    (hsegs : ∀ s ∈ tailSegs, s ≠ [] ∧ '\\' ∉ s) :
    ∀ d st, d ≤ tailSegs.length → st.rootAttr = Option.none →
      (∀ j, 1 ≤ j → j ≤ d → (rootVal, joinBS (tailSegs.take j)) ∉ st.reg) →
      (createSearch (rootTok :: tailSegs) wow (d + 1) st).1 = .error .valueErr
      ∧ (createSearch (rootTok :: tailSegs) wow (d + 1) st).2.2
          = failTrace st.host rootVal (get_access_key KEY_WRITE wow) tailSegs d := by
  intro d
  induction d with
  | zero =>
      intro st _ _ _
      have hp : parse_path (joinBS ((rootTok :: tailSegs).take 1))
          = .error .valueErr := by
        rw [show (rootTok :: tailSegs).take 1 = [rootTok] from by simp,
            show joinBS [rootTok] = rootTok from rfl]
        unfold parse_path
        rw [splitFirst_of_not_mem rootTok hbs]
      have hgh := getHandler_parse_err st (joinBS ((rootTok :: tailSegs).take 1))
        KEY_WRITE wow .valueErr hp
      have hcs : createSearch (rootTok :: tailSegs) wow (0 + 1) st
          = (.error .valueErr, st, []) := by
        conv_lhs => rw [createSearch]
        rw [hgh]
      refine ⟨by rw [hcs], by rw [hcs]; rfl⟩
  | succ d ih =>
      intro st hlen hra habs
      have hstep := createSearch_step_fail rootTok tailSegs rootVal wow st (d + 1)
        hroot hbs hsegs (by omega) (by omega) hra
        (habs (d + 1) (by omega) (by omega))
      have hrec := ih { st with client := Option.some rootVal } (by omega) hra
        (fun j hj1 hj2 => habs j hj1 (by omega))
      rw [hstep]
      exact ⟨hrec.1, by rw [failTrace]; simp [hrec.2]⟩

/-- C3: `create_key` ancestor search.  For any store in which the prefix
with `k` relative segments exists and every longer prefix is absent
(`1 ≤ k ≤ |tailSegs|`), the call succeeds, and its full OS trace is exactly
`probeTrace … (k+1) (|tailSegs| - k)` — the open attempts on the prefixes
with write access, starting from the full path and stripping one trailing
segment per failed (`FileNotFoundError`) attempt, with ONLY the final
attempt (the existing ancestor) succeeding — followed by exactly ONE create
call, issued on that ancestor's handle, whose argument is the stripped
suffix `joinBS (tailSegs.drop k)` (the segments beyond the ancestor
rejoined with the separator).  When the full path already exists
(`k = |tailSegs|`) the first open succeeds, the tail is empty, and the
store is left unchanged (idempotence); the `rootAttr = none` hypothesis
holds for every reachable client state since the source never assigns
`self._root`. -/
theorem c3_create_key_ancestor_search
    (rootTok : PStr) (tailSegs : List PStr) (rootVal k : Nat) (st : WRState)
    (wow : Bool)
    (hroot : winregAttr (expand_short_root (upperStr rootTok)) = Option.some rootVal)
    (hbs : '\\' ∉ rootTok)
    (hsegs : ∀ s ∈ tailSegs, s ≠ [] ∧ '\\' ∉ s)
    (hk1 : 1 ≤ k) (hkn : k ≤ tailSegs.length)
    (hra : st.rootAttr = Option.none)
    (hmem : (rootVal, joinBS (tailSegs.take k)) ∈ st.reg)
    (habs : ∀ j, k < j → j ≤ tailSegs.length →
        (rootVal, joinBS (tailSegs.take j)) ∉ st.reg) :
    (create_key st (joinBS (rootTok :: tailSegs)) wow).1 = .ok ()
    ∧ (create_key st (joinBS (rootTok :: tailSegs)) wow).2.2
        = probeTrace st.host rootVal (get_access_key KEY_WRITE wow) tailSegs
            (k + 1) (tailSegs.length - k)
          ++ [Event.createK rootVal (joinBS (tailSegs.take k))
                (joinBS (tailSegs.drop k))]
    ∧ (k = tailSegs.length →
        (create_key st (joinBS (rootTok :: tailSegs)) wow).2.1
          = { st with client := Option.some rootVal }) := by
  have hsa : splitAll (joinBS (rootTok :: tailSegs)) = rootTok :: tailSegs :=
    splitAll_joinBS rootTok tailSegs (by
      intro q hq
      rcases List.mem_cons.mp hq with h | h
      · subst h; exact hbs
      · exact (hsegs q h).2)
  have hcs := createSearch_success rootTok tailSegs rootVal wow k hroot hbs hsegs hk1
    (tailSegs.length - k) st (by omega) hra hmem
    (fun j hj1 hj2 => habs j hj1 (by omega))
  rw [show k + (tailSegs.length - k) + 1 = tailSegs.length + 1 from by omega] at hcs
  unfold create_key
  rw [hsa]
  simp only [List.length_cons, hcs, List.drop_succ_cons]
  refine ⟨trivial, trivial, ?_⟩
  intro hk
  subst hk
  rw [List.drop_length]
  simp [joinBS]

/-- C3 witness: the ancestor-search theorem at the claim's own example —
store contains exactly the ancestor `HKEY_LOCAL_MACHINE\A`, request is
`HKEY_LOCAL_MACHINE\A\B\C` (`k = 1` relative segment exists): the probes
descend `A\B\C`, `A\B`, `A` with only the last succeeding, and one create
call carries the tail `B\C`. -/
theorem c3_create_key_witness :
    (create_key (initState Option.none [(HKEY_LOCAL_MACHINE, "A".toList)] [])
        (joinBS ["HKEY_LOCAL_MACHINE".toList, "A".toList, "B".toList, "C".toList])
        false).1 = .ok ()
    ∧ (create_key (initState Option.none [(HKEY_LOCAL_MACHINE, "A".toList)] [])
        (joinBS ["HKEY_LOCAL_MACHINE".toList, "A".toList, "B".toList, "C".toList])
        false).2.2
      = probeTrace Option.none HKEY_LOCAL_MACHINE (get_access_key KEY_WRITE false)
          ["A".toList, "B".toList, "C".toList] 2 2
        ++ [Event.createK HKEY_LOCAL_MACHINE
              (joinBS (["A".toList, "B".toList, "C".toList].take 1))
              (joinBS (["A".toList, "B".toList, "C".toList].drop 1))] := by
  have h := c3_create_key_ancestor_search ("HKEY_LOCAL_MACHINE".toList)
    ["A".toList, "B".toList, "C".toList] HKEY_LOCAL_MACHINE 1
    (initState Option.none [(HKEY_LOCAL_MACHINE, "A".toList)] []) false
    (by decide) (by decide)
    (by intro s hs; fin_cases hs <;> exact ⟨by decide, by decide⟩)
    (by decide) (by decide) rfl (by decide)
    (by
      intro j hj1 hj2
      simp only [List.length_cons, List.length_nil] at hj2
      interval_cases j <;> decide)
  exact ⟨h.1, h.2.1⟩

/-- C4 counterexample: with an empty store (no prefix of the request opens,
not even the bare root), `create_key` fails with `ValueError`
(MalformedPath) — NOT with `FileNotFoundError` (the claimed `NotFound`):
once the loop has stripped the path down to the bare root token,
`parse_path` raises `ValueError` because the token contains no separator,
and that exception is not caught by the loop (only `FileNotFoundError`
is). -/
theorem c4_create_key_cex :
    (create_key (initState Option.none [] [])
        ("HKEY_LOCAL_MACHINE\\A\\B".toList) false).1 = .error .valueErr
    ∧ (Except.error PyErr.valueErr : Except PyErr Unit) ≠ .error .fileNotFound := by
  refine ⟨rfl, by simp⟩

/-- C4 amended: when no prefix of the requested path opens (every prefix of
at least two tokens is absent from the store), `create_key` fails with
`ValueError` (MalformedPath), not `NotFound`, and not silent success: its
trace is exactly the failed probes from the full path down to the
two-token prefix (`failTrace`), after which parsing the bare root token
raises `ValueError` with no further OS call and no create call ever
issued. -/
theorem c4_create_key_amended
    (rootTok : PStr) (tailSegs : List PStr) (rootVal : Nat) (st : WRState)
    (wow : Bool)
    (hroot : winregAttr (expand_short_root (upperStr rootTok)) = Option.some rootVal)
    (hbs : '\\' ∉ rootTok)
    (hsegs : ∀ s ∈ tailSegs, s ≠ [] ∧ '\\' ∉ s)
    (hra : st.rootAttr = Option.none)
    (habs : ∀ j, 1 ≤ j → j ≤ tailSegs.length →
        (rootVal, joinBS (tailSegs.take j)) ∉ st.reg) :
    (create_key st (joinBS (rootTok :: tailSegs)) wow).1 = .error .valueErr
    ∧ (create_key st (joinBS (rootTok :: tailSegs)) wow).2.2
        = failTrace st.host rootVal (get_access_key KEY_WRITE wow) tailSegs
            tailSegs.length := by
  have hsa : splitAll (joinBS (rootTok :: tailSegs)) = rootTok :: tailSegs :=
    splitAll_joinBS rootTok tailSegs (by
      intro q hq
      rcases List.mem_cons.mp hq with h | h
      · subst h; exact hbs
      · exact (hsegs q h).2)
  have hcs := createSearch_allAbsent rootTok tailSegs rootVal wow hroot hbs hsegs
    tailSegs.length st (le_refl _) hra habs
  cases hres : createSearch (rootTok :: tailSegs) wow (tailSegs.length + 1) st with
  | mk res rest =>
  obtain ⟨st2, tr2⟩ := rest
  have h1 : res = .error .valueErr := by
    have h := hcs.1
    rw [hres] at h
    exact h
  have h2 : tr2 = failTrace st.host rootVal (get_access_key KEY_WRITE wow) tailSegs
      tailSegs.length := by
    have h := hcs.2
    rw [hres] at h
    exact h
  subst h1
  subst h2
  unfold create_key
  rw [hsa]
  simp only [List.length_cons, hres]
  exact ⟨trivial, trivial⟩

/-- C4 witness: the amended theorem applied at request
`HKEY_LOCAL_MACHINE\A\B` over the empty store. -/
theorem c4_create_key_witness :
    (create_key (initState Option.none [] [])
        (joinBS ["HKEY_LOCAL_MACHINE".toList, "A".toList, "B".toList]) false).1
      = .error .valueErr
    ∧ (create_key (initState Option.none [] [])
        (joinBS ["HKEY_LOCAL_MACHINE".toList, "A".toList, "B".toList]) false).2.2
      = failTrace Option.none HKEY_LOCAL_MACHINE (get_access_key KEY_WRITE false)
          ["A".toList, "B".toList] 2 := by
  have h := c4_create_key_amended ("HKEY_LOCAL_MACHINE".toList)
    ["A".toList, "B".toList] HKEY_LOCAL_MACHINE
    (initState Option.none [] []) false
    (by decide) (by decide)
    (by intro s hs; fin_cases hs <;> exact ⟨by decide, by decide⟩)
    rfl
    (by
      intro j hj1 hj2
      simp only [List.length_cons, List.length_nil] at hj2
      interval_cases j <;> decide)
  exact ⟨h.1, h.2⟩

end WReg
